import Mathlib

/-!
Verification of the batch metadata engine of `advanced_image_processor.py`
(class `AdvancedImageCompressorGUI`).  Each Python routine the claims touch is
shallowly embedded as an executable Lean definition; theorems at the end settle
the claims.  Bytes are modelled as `List Nat` (each entry < 256 by
construction), Python `dict`s as association lists or option-field structures,
and the filesystem as an association list from path strings to file data.
-/

namespace ImageProc

/-! ## Python string primitives shared by several embeddings -/

/-- Python `\s` on the ASCII range: the whitespace class used by `str.strip`
and by the `re` patterns of the parser. -/
def isPySpace (c : Char) : Bool :=
  c = ' ' ∨ c = '\t' ∨ c = '\n' ∨ c = '\x0d' ∨ c = '\x0b' ∨ c = '\x0c'

/-- Python `str.strip()` on a character list. -/
def stripChars (l : List Char) : List Char :=
  ((l.dropWhile isPySpace).reverse.dropWhile isPySpace).reverse

/-- Python `str.strip()`. -/
def pyStrip (s : String) : String := String.mk (stripChars s.data)

/-- Case-insensitive prefix test on character lists (ASCII lowering, as in
`re.IGNORECASE` over the inputs at hand). -/
def lowerIsPrefix : List Char → List Char → Bool
  | [], _ => true
  | _ :: _, [] => false
  | a :: as, b :: bs => a.toLower = b.toLower ∧ lowerIsPrefix as bs

/-- Whether `needle` occurs in `hay` as a contiguous substring (Python
`needle in hay`), case-sensitively on already-lowered text. -/
def hasSub (needle : List Char) : List Char → Bool
  | [] => needle.isEmpty
  | c :: cs => needle.isPrefixOf (c :: cs) ∨ hasSub needle cs

/-- Python `s.lower()` restricted to ASCII lowering. -/
def pyLower (s : String) : List Char := s.data.map Char.toLower

/-- Python `int(s)` for the strings this program feeds it: optional
whitespace, then digits.  `none` models the `ValueError`. -/
def pyIntOpt (s : String) : Option Nat :=
  let t := stripChars s.data
  if t ≠ [] ∧ t.all Char.isDigit then
    some (t.foldl (fun a c => a * 10 + (c.toNat - 48)) 0)
  else none

/-! ## Context Builder: `parse_filename_data` -/

/-- `pathlib.PurePath.stem` for a plain (separator-free) file name: the name
without its final suffix, where a suffix needs a dot that is neither the first
nor the last character. -/
def pathStem (name : String) : String :=
  let l := name.data
  let rpos := l.reverse.findIdx (fun c => c = '.')
  if rpos < l.length then
    let i := l.length - 1 - rpos
    if 0 < i ∧ i < l.length - 1 then String.mk (l.take i) else name
  else name

structure FilenameData where
  filename : String
  code : String
  type : String
  color : String
  name : String
  category : String
  number : String
deriving DecidableEq, Repr

/-- Python `str.split(sep)` for a one-character separator, on character
lists: splits at every occurrence and keeps empty pieces. -/
def splitOnChar (sep : Char) : List Char → List (List Char)
  | [] => [[]]
  | c :: cs =>
      let r := splitOnChar sep cs
      if c = sep then [] :: r
      else
        match r with
        | [] => [[c]]
        | h :: t => (c :: h) :: t

/-- The pieces of `name.split('_')` as strings. -/
def splitUnderscore (name : String) : List String :=
  (splitOnChar '_' name.data).map String.mk

/-- `parse_filename_data(filename)`: strip the extension, split on `_`; with
at least 6 tokens, tokens 0-5 become code/type/color/name/category/number,
otherwise every derived field stays the empty string. -/
def parseFilenameData (filename : String) : FilenameData :=
  let parts := splitUnderscore (pathStem filename)
  if 6 ≤ parts.length then
    { filename := filename
      code := parts.getD 0 ("")
      type := parts.getD 1 ("")
      color := parts.getD 2 ("")
      name := parts.getD 3 ("")
      category := parts.getD 4 ("")
      number := parts.getD 5 ("") }
  else
    { filename := filename, code := "", type := "", color := "",
      name := "", category := "", number := "" }

/-! ## Generation Orchestrator: the batch loop of `_process_batch_ai_thread` -/

/-- What one iteration of the batch loop observes for one image:
`_process_single_image_ai` returned `True`, returned `False`, or the
iteration body raised and the `except` arm of the loop caught it. -/
inductive ImageOutcome
  | success
  | failure
  | raised
deriving DecidableEq, Repr

structure BatchCounts where
  processed : Nat
  successful : Nat
  failed : Nat
deriving DecidableEq, Repr

/-- One iteration of the `for i, image_path in enumerate(...)` loop: a success
bumps `successful`, a `False` result bumps `failed`, a raised exception is
caught by the per-image `except`, bumps `failed` and skips the
`processed += 1` line; in every case the loop moves to the next image. -/
def stepBatch (c : BatchCounts) : ImageOutcome → BatchCounts
  | .success => { c with successful := c.successful + 1, processed := c.processed + 1 }
  | .failure => { c with failed := c.failed + 1, processed := c.processed + 1 }
  | .raised => { c with failed := c.failed + 1 }

/-- The whole loop of `_process_batch_ai_thread` over the per-image outcomes,
starting from zero counters. -/
def runBatchLoop (outcomes : List ImageOutcome) : BatchCounts :=
  outcomes.foldl stepBatch ⟨0, 0, 0⟩

/-- The end-of-run summary line: `{successful} successful, {failed} failed out
of {total} total`, reported by plain logging (no raise) after the loop. -/
def batchSummary (outcomes : List ImageOutcome) : Nat × Nat × Nat :=
  ((runBatchLoop outcomes).successful, (runBatchLoop outcomes).failed, outcomes.length)

/-! ## `start_batch_ai_processing`: the guards of the start entry point -/

/-- The ambient state `start_batch_ai_processing` consults, plus the
`ai_processing` flag that `_process_batch_ai_thread` sets while a run is
active, and the answer of the confirmation dialog. -/
structure StartState where
  batchFolder : Option String
  aiEnabled : Bool
  chatMessages : List String
  aiProcessing : Bool
  userConfirms : Bool
deriving DecidableEq, Repr

inductive StartDecision
  | launchThread
  | rejected
deriving DecidableEq, Repr

/-- `start_batch_ai_processing`: warn and return when no folder is selected,
AI is disabled or no chat rules exist; return when the user declines the
confirmation dialog; otherwise start the worker thread.  The function never
reads `ai_processing`. -/
def startBatchAiProcessing (s : StartState) : StartDecision :=
  if s.batchFolder = none then .rejected
  else if ¬ s.aiEnabled then .rejected
  else if s.chatMessages = [] then .rejected
  else if ¬ s.userConfirms then .rejected
  else .launchThread

/-! ## `_save_webp_metadata_direct` and the missing `exiftool_path` attribute -/

/-- A Python metadata dict over the six canonical keys, as built by the
response parser and consumed by the persistence routines; `none` is an absent
key. -/
structure MetadataRecord where
  xpTitle : Option String := none
  imageDescription : Option String := none
  xpKeywords : Option String := none
  artist : Option String := none
  make : Option String := none
  model : Option String := none
deriving DecidableEq, Repr

def MetadataRecord.isEmptyRec (r : MetadataRecord) : Bool :=
  r.xpTitle = none ∧ r.imageDescription = none ∧ r.xpKeywords = none
    ∧ r.artist = none ∧ r.make = none ∧ r.model = none

/-- The value of `self.exiftool_path` when `_save_webp_metadata_direct` reads
it.  `exiftool_path` is assigned nowhere in the class (the only occurrence in
the file is the read at the `cmd = [self.exiftool_path, ...]` line), so the
attribute lookup raises `AttributeError`; modelled as `none`. -/
def exiftoolPathAttr : Option String := none

/-- The environment of one `_save_webp_metadata_direct` call when the tool is
actually reachable: the exit code `subprocess.run` would report. -/
structure ToolEnv where
  exitCode : Nat

/-- `_save_webp_metadata_direct(image_path, metadata_dict)`: build the
ExifTool command from `self.exiftool_path` and run it.  Reading the attribute
raises `AttributeError`, which the `except` arm catches, logging and returning
`False`; were the attribute present, success would be `returncode == 0`. -/
def saveWebpMetadataDirect (env : ToolEnv) (imagePath : String)
    (r : MetadataRecord) : Bool :=
  match exiftoolPathAttr with
  | none => false
  | some _ =>
      let _ := imagePath
      let _ := r
      env.exitCode = 0

/-! ## Metadata Codec: byte encodings used by the JPEG persistence paths -/

/-- `str.encode('utf-16le')` for one character: UTF-16 code units in
little-endian byte order, surrogate pairs above the BMP, no byte-order mark. -/
def utf16leChar (c : Char) : List Nat :=
  let n := c.toNat
  if n < 0x10000 then [n % 256, n / 256]
  else
    let v := n - 0x10000
    let hi := 0xD800 + v / 0x400
    let lo := 0xDC00 + v % 0x400
    [hi % 256, hi / 256, lo % 256, lo / 256]

/-- `value.encode('utf-16le')`. -/
def utf16leEncode (s : String) : List Nat :=
  s.data.foldr (fun c acc => utf16leChar c ++ acc) []

/-- `str.encode('utf-8')` for one character. -/
def utf8Char (c : Char) : List Nat :=
  let n := c.toNat
  if n < 0x80 then [n]
  else if n < 0x800 then [0xC0 + n / 0x40, 0x80 + n % 0x40]
  else if n < 0x10000 then
    [0xE0 + n / 0x1000, 0x80 + n / 0x40 % 0x40, 0x80 + n % 0x40]
  else
    [0xF0 + n / 0x40000, 0x80 + n / 0x1000 % 0x40,
      0x80 + n / 0x40 % 0x40, 0x80 + n % 0x40]

/-- `value.encode('utf-8')`. -/
def utf8Encode (s : String) : List Nat :=
  s.data.foldr (fun c acc => utf8Char c ++ acc) []

/-- `bytes.decode('utf-16le', errors='ignore')`: two-byte little-endian units,
surrogate pairs recombined, lone surrogates and a trailing odd byte dropped. -/
def utf16leDecode : List Nat → List Char
  | [] => []
  | [_] => []
  | b0 :: b1 :: rest =>
    let u := b0 + 256 * b1
    if 0xD800 ≤ u ∧ u < 0xDC00 then
      match h : rest with
      | b2 :: b3 :: rest2 =>
          let u2 := b2 + 256 * b3
          if 0xDC00 ≤ u2 ∧ u2 < 0xE000 then
            Char.ofNat (0x10000 + (u - 0xD800) * 0x400 + (u2 - 0xDC00))
              :: utf16leDecode rest2
          else utf16leDecode rest
      | _ => []
    else if 0xDC00 ≤ u ∧ u < 0xE000 then utf16leDecode rest
    else Char.ofNat u :: utf16leDecode rest
termination_by l => l.length
decreasing_by all_goals (subst_vars; simp_arith [List.length])

/-- How many continuation bytes a UTF-8 lead byte announces (0 for an invalid
lead). -/
def utf8Need (b0 : Nat) : Nat :=
  if 0xC2 ≤ b0 ∧ b0 < 0xE0 then 1
  else if 0xE0 ≤ b0 ∧ b0 < 0xF0 then 2
  else if 0xF0 ≤ b0 ∧ b0 < 0xF5 then 3
  else 0

/-- `bytes.decode('utf-8', errors='ignore')`: ASCII bytes pass through, a
well-formed multi-byte sequence decodes to its codepoint, and a malformed lead
or continuation byte is skipped. -/
def utf8Decode : List Nat → List Char
  | [] => []
  | b0 :: rest =>
    if b0 < 0x80 then Char.ofNat b0 :: utf8Decode rest
    else
      let need := utf8Need b0
      let cont := rest.take need
      if need ≠ 0 ∧ cont.length = need
          ∧ cont.all (fun b => 0x80 ≤ b ∧ b < 0xC0) then
        let lead := if need = 1 then 0xC0 else if need = 2 then 0xE0 else 0xF0
        let v := cont.foldl (fun a b => a * 0x40 + (b - 0x80)) (b0 - lead)
        Char.ofNat v :: utf8Decode (rest.drop need)
      else utf8Decode rest
termination_by l => l.length
decreasing_by
  all_goals simp_arith [List.length_drop]

/-- The 2-byte little-endian byte-order mark `b'\xff\xfe'`. -/
def bomBytes : List Nat := [0xFF, 0xFE]

/-- The UTF-16LE branch of `save_simple_jpeg_metadata`: encode, then prepend
the BOM unless the encoded bytes already start with it. -/
def encodeUtf16WithBom (v : String) : List Nat :=
  let e := utf16leEncode v
  if e.take 2 = bomBytes then e else bomBytes ++ e

/-- The 0th-IFD EXIF block as a tag-id-to-bytes dictionary. -/
def ExifStore := List (Nat × List Nat)

def setTag (store : ExifStore) (tag : Nat) (v : List Nat) : ExifStore :=
  (tag, v) :: (store : List (Nat × List Nat)).filter (fun e => ¬ (e.1 = tag))

def getTag (store : ExifStore) (tag : Nat) : Option (List Nat) :=
  ((store : List (Nat × List Nat)).find? (fun e => e.1 = tag)).map (fun e => e.2)

/-- `exif_dict['0th'][tag_id] = encoded` for one optional field. -/
def putField (store : ExifStore) (tag : Nat) (enc : String → List Nat) :
    Option String → ExifStore
  | none => store
  | some v => setTag store tag (enc v)

/-- `save_simple_jpeg_metadata`: each present field is written at its fixed
piexif tag id (XPTitle 40091, ImageDescription 270, XPKeywords 40094,
Artist 315, Make 271, Model 272); XPTitle and XPKeywords as UTF-16LE with a
BOM added when absent, the rest as UTF-8. -/
def saveSimpleJpegMetadata (r : MetadataRecord) (store : ExifStore) : ExifStore :=
  let s1 := putField store 40091 encodeUtf16WithBom r.xpTitle
  let s2 := putField s1 270 utf8Encode r.imageDescription
  let s3 := putField s2 40094 encodeUtf16WithBom r.xpKeywords
  let s4 := putField s3 315 utf8Encode r.artist
  let s5 := putField s4 271 utf8Encode r.make
  putField s5 272 utf8Encode r.model

/-- `_save_jpeg_metadata_direct`: same tag ids, but XPTitle and XPKeywords are
written as `value.encode('utf-16le')` with no BOM handling at all. -/
def saveJpegMetadataDirectStore (r : MetadataRecord) (store : ExifStore) : ExifStore :=
  let s1 := putField store 40091 utf16leEncode r.xpTitle
  let s2 := putField s1 270 utf8Encode r.imageDescription
  let s3 := putField s2 40094 utf16leEncode r.xpKeywords
  let s4 := putField s3 315 utf8Encode r.artist
  let s5 := putField s4 271 utf8Encode r.make
  putField s5 272 utf8Encode r.model

/-- The per-tag decode of `load_simple_metadata`: tags 40091/40094 drop a
leading BOM and decode UTF-16LE, every other tag decodes UTF-8, always with
`errors='ignore'`. -/
def decodeTagBytes (tag : Nat) (b : List Nat) : String :=
  if tag = 40091 ∨ tag = 40094 then
    String.mk (utf16leDecode (if b.take 2 = bomBytes then b.drop 2 else b))
  else String.mk (utf8Decode b)

/-- The six canonical fields as `load_simple_metadata` reads them back from an
EXIF block (`none` when the tag is absent, so the UI field stays empty). -/
def loadSimpleRecord (store : ExifStore) : MetadataRecord :=
  { xpTitle := (getTag store 40091).map (decodeTagBytes 40091)
    imageDescription := (getTag store 270).map (decodeTagBytes 270)
    xpKeywords := (getTag store 40094).map (decodeTagBytes 40094)
    artist := (getTag store 315).map (decodeTagBytes 315)
    make := (getTag store 271).map (decodeTagBytes 271)
    model := (getTag store 272).map (decodeTagBytes 272) }

/-- Every character of every present value is plain ASCII (codepoint < 128). -/
def asciiStr (s : String) : Prop := ∀ c ∈ s.data, c.toNat < 128

def asciiOpt : Option String → Prop
  | none => True
  | some v => asciiStr v

def MetadataRecord.ascii (r : MetadataRecord) : Prop :=
  asciiOpt r.xpTitle ∧ asciiOpt r.imageDescription ∧ asciiOpt r.xpKeywords
    ∧ asciiOpt r.artist ∧ asciiOpt r.make ∧ asciiOpt r.model

instance (s : String) : Decidable (asciiStr s) :=
  inferInstanceAs (Decidable (∀ c ∈ s.data, c.toNat < 128))

instance : (o : Option String) → Decidable (asciiOpt o)
  | none => isTrue trivial
  | some v => inferInstanceAs (Decidable (asciiStr v))

instance (r : MetadataRecord) : Decidable r.ascii :=
  inferInstanceAs (Decidable (_ ∧ _ ∧ _ ∧ _ ∧ _ ∧ _))

/-! ## WebP backend: the external metadata tool -/

/-- Modelled from the spec: the external metadata tool (not part of this
repository) is invoked as `<tool> -overwrite_original <-TAGNAME "value"> ...
<file>`; it stores, for each `-TAGNAME value` argument pair, the accompanying
argument string under that XMP tag of the file, and its read side returns the
stored string unchanged. -/
def ToolStore := List (String × String)

def toolPut (store : ToolStore) (tag v : String) : ToolStore :=
  (tag, v) :: (store : List (String × String)).filter (fun e => ¬ (e.1 = tag))

def toolGet (store : ToolStore) (tag : String) : Option String :=
  ((store : List (String × String)).find? (fun e => e.1 = tag)).map (fun e => e.2)

def runToolArgs (args : List (String × String)) (store : ToolStore) : ToolStore :=
  args.foldl (fun st a => toolPut st a.1 a.2) store

/-- Python `f'"{value}"'`: the writers wrap every tag value in literal double
quotes before handing it to the tool. -/
def quoteArg (v : String) : String := "\"" ++ v ++ "\""

/-- The `-XMP:<name> value` pairs `save_simple_webp_metadata` (and the other
WebP writers) build for a record: each present field is mapped to its fixed
XMP tag name with the quote-wrapped value. -/
def webpCmdPairs (r : MetadataRecord) : List (String × String) :=
  (match r.xpTitle with
    | some v => [("XMP:Title", quoteArg v)] | none => [])
  ++ (match r.imageDescription with
    | some v => [("XMP:Description", quoteArg v)] | none => [])
  ++ (match r.xpKeywords with
    | some v => [("XMP:Subject", quoteArg v)] | none => [])
  ++ (match r.artist with
    | some v => [("XMP:Creator", quoteArg v)] | none => [])
  ++ (match r.make with
    | some v => [("XMP:Make", quoteArg v)] | none => [])
  ++ (match r.model with
    | some v => [("XMP:Model", quoteArg v)] | none => [])

/-- One WebP write into a file with no prior XMP tags. -/
def webpWrite (r : MetadataRecord) : ToolStore :=
  runToolArgs (webpCmdPairs r) ([] : ToolStore)

/-! ## Persistence as filesystem traces (atomicity) -/

inductive FileData
  | bytes (b : List Nat)
  | corrupted
deriving DecidableEq, Repr

def FsState := List (String × FileData)

def fsGet (s : FsState) (p : String) : Option FileData :=
  ((s : List (String × FileData)).find? (fun e => e.1 = p)).map (fun e => e.2)

def fsSet (s : FsState) (p : String) (d : FileData) : FsState :=
  (p, d) :: (s : List (String × FileData)).filter (fun e => ¬ (e.1 = p))

def fsDel (s : FsState) (p : String) : FsState :=
  (s : List (String × FileData)).filter (fun e => ¬ (e.1 = p))

/-- The file operations the persistence routines perform, in program order.
`moveFile` stands for a genuine `os.rename`; `shutil.move`, which only
sometimes is one, is rendered by `movePython` below. -/
inductive FsOp
  | copyFile (src dst : String)
  | writeFile (p : String) (d : FileData)
  | moveFile (src dst : String)
  | deleteFile (p : String)
deriving DecidableEq, Repr

/-- Running one operation to completion. -/
def applyOp (s : FsState) : FsOp → FsState
  | .copyFile src dst =>
      match fsGet s src with
      | some d => fsSet s dst d
      | none => s
  | .writeFile p d => fsSet s p d
  | .moveFile src dst =>
      match fsGet s src with
      | some d => fsDel (fsSet s dst d) src
      | none => s
  | .deleteFile p => fsDel s p

/-- An operation interrupted part way through: an interrupted file write or
copy leaves its destination corrupted; an `os.rename` and an `unlink` are
metadata operations that either happen entirely or not at all, modelled as
not applied. -/
def crashOp (s : FsState) : FsOp → FsState
  | .copyFile _ dst => fsSet s dst .corrupted
  | .writeFile p _ => fsSet s p .corrupted
  | .moveFile _ _ => s
  | .deleteFile _ => s

/-- Run the first `k` operations to completion, then crash in the middle of
operation `k` (when `k` is past the end, the whole trace ran). -/
def runCrash (s : FsState) : List FsOp → Nat → FsState
  | [], _ => s
  | op :: _, 0 => crashOp s op
  | op :: rest, k + 1 => runCrash (applyOp s op) rest k

/-- `_save_jpeg_metadata_direct`: `image.save(image_path, 'JPEG', ...)`
rewrites the original path in place — no temp copy anywhere in the trace. -/
def jpegDirectTrace (imagePath : String) (newData : FileData) : List FsOp :=
  [.writeFile imagePath newData]

/-- `shutil.move(src, dst)`: an `os.rename` when the OS grants one (`renames`
true: same filesystem and a replaceable destination); otherwise — always on
Windows onto an existing destination, and cross-filesystem elsewhere — the
documented fallback `copy2(src, dst)` followed by `unlink(src)`. -/
def movePython (renames : Bool) (src dst : String) : List FsOp :=
  if renames then [.moveFile src dst]
  else [.copyFile src dst, .deleteFile src]

/-- `save_simple_metadata`: copy the original to a temp file, mutate the temp
file (`save_simple_jpeg_metadata` / `save_simple_webp_metadata` run on
`temp_file_path`), then `shutil.move` the temp file over the original. -/
def simpleSaveTrace (renames : Bool) (orig temp : String) (newData : FileData) :
    List FsOp :=
  [.copyFile orig temp, .writeFile temp newData] ++ movePython renames temp orig

def FsOp.isCopy : FsOp → Bool
  | .copyFile _ _ => true
  | _ => false

/-! ## Response Parser: `_parse_ai_response_for_metadata` -/

/-- The dict the response parser builds, over the six canonical field
names. -/
structure ParsedMeta where
  title : Option String := none
  description : Option String := none
  keywords : Option String := none
  artist : Option String := none
  make : Option String := none
  model : Option String := none
deriving DecidableEq, Repr

/-- Python `max(parts, key=len)`: the first entry of maximal length. -/
def pyMaxByLen : List (List Char) → Option (List Char)
  | [] => none
  | h :: t =>
      some (t.foldl (fun best x => if best.length < x.length then x else best) h)

/-- Python `sep.join(parts)`. -/
def joinWith (sep : List Char) : List (List Char) → List Char
  | [] => []
  | [x] => x
  | x :: y :: t => x ++ sep ++ joinWith sep (y :: t)

/-- The fixed domain-term whitelist the keyword fallback intersects the
response against, in source order. -/
def keywordIndicators : List String :=
  ["kitchen", "worktop", "countertop", "cabinet", "modern", "design",
    "concrete", "wood", "granite", "braganza"]

/-- `re.search(key + r'\s*:\s*(.+?)(?:\n|$)', text, IGNORECASE | MULTILINE)`
tried at one start position: the key (case-insensitively), optional
whitespace, a colon, then the capture - the rest of the line around the first
non-whitespace character after the colon; an all-blank remainder holding some
non-newline character backtracks to a blank capture, otherwise the position
fails. -/
def keyCapture (rest : List Char) : Option (List Char) :=
  let v := rest.dropWhile isPySpace
  if ¬ (v = []) then some (v.takeWhile (fun x => ¬ (x = '\n')))
  else if rest.any (fun x => ¬ (x = '\n')) then some []
  else none

def matchKeyAt (key : List Char) (cs : List Char) : Option (List Char) :=
  if lowerIsPrefix key cs then
    match (cs.drop key.length).dropWhile isPySpace with
    | c :: rest => if c = ':' then keyCapture rest else none
    | [] => none
  else none

/-- The leftmost match of the key-colon pattern over the whole text. -/
def searchKey (key : List Char) : List Char → Option (List Char)
  | [] => none
  | c :: cs =>
      match matchKeyAt key (c :: cs) with
      | some v => some v
      | none => searchKey key cs

def isQuoteCh (c : Char) : Bool := c = '"' ∨ c = '\''

/-- The optional `["\']?` right after the key. -/
def skipOptQuote : List Char → List Char
  | c :: t => if isQuoteCh c then t else c :: t
  | [] => []

/-- One fallback pattern `key["\']?\s*[:=]\s*["\']([^"\']+)["\']` tried at
one start position. -/
def quotedCapture (rest : List Char) : Option (List Char) :=
  match rest.dropWhile isPySpace with
  | q :: rest2 =>
      if isQuoteCh q then
        let content := rest2.takeWhile (fun x => ¬ isQuoteCh x)
        if ¬ (content = []) ∧ ¬ (rest2.drop content.length = []) then
          some content
        else none
      else none
  | [] => none

def matchQuotedAt (key : List Char) (cs : List Char) : Option (List Char) :=
  if lowerIsPrefix key cs then
    match (skipOptQuote (cs.drop key.length)).dropWhile isPySpace with
    | c :: rest => if c = ':' ∨ c = '=' then quotedCapture rest else none
    | [] => none
  else none

def searchQuoted (key : List Char) : List Char → Option (List Char)
  | [] => none
  | c :: cs =>
      match matchQuotedAt key (c :: cs) with
      | some v => some v
      | none => searchQuoted key cs

/-- The fallback-pattern loop: the first pattern that matches anywhere in the
text wins. -/
def searchQuotedList (keys : List String) (cs : List Char) : Option (List Char) :=
  match keys with
  | [] => none
  | k :: t =>
      match searchQuoted k.data cs with
      | some v => some v
      | none => searchQuotedList t cs

/-- `<title>([^<]+)</title>` (case-insensitive) at one start position. -/
def matchHtmlTitleAt (cs : List Char) : Option (List Char) :=
  if lowerIsPrefix ("<title>".data) cs then
    let content := (cs.drop 7).takeWhile (fun c => ¬ (c = '<'))
    if ¬ (content = [])
        ∧ lowerIsPrefix ("</title>".data) ((cs.drop 7).drop content.length) then
      some content
    else none
  else none

def searchHtmlTitle : List Char → Option (List Char)
  | [] => none
  | c :: cs =>
      match matchHtmlTitleAt (c :: cs) with
      | some v => some v
      | none => searchHtmlTitle cs

/-- Python falsy test on an optional string field (`not metadata.get(k)`). -/
def optFalsy (o : Option String) : Bool := o = none ∨ o = some ""

/-- The shared per-field strategy: the line-anchored `key:` pattern first,
then the quoted `key[:=]"value"` fallback patterns in order. -/
def fieldPrimary (key : List Char) (fallbackKeys : List String)
    (cs : List Char) : Option String :=
  match searchKey key cs with
  | some v => some (String.mk (stripChars v))
  | none =>
      (searchQuotedList fallbackKeys cs).map (fun v => String.mk (stripChars v))

/-- The Description extraction: among the stripped lines that are non-empty,
not starting with the `**`, `###` or triple-backtick markers and longer than 20 characters, the longest
(first of maximal length). -/
def descriptionOf (cs : List Char) : Option String :=
  let stripped := (splitOnChar '\n' cs).map stripChars
  let descParts := stripped.filter (fun l =>
      ¬ (l = []) ∧ ¬ (("**".data).isPrefixOf l) ∧ ¬ (("###".data).isPrefixOf l)
        ∧ ¬ (("```".data).isPrefixOf l) ∧ 20 < l.length)
  (pyMaxByLen descParts).map String.mk

/-- The Keywords extraction: the domain terms occurring in the lowered
response, joined with a comma and space. -/
def keywordsOf (low : List Char) : Option String :=
  let found := keywordIndicators.filter (fun k => hasSub k.data low)
  if found = [] then none
  else some (String.mk (joinWith (", ".data) (found.map String.data)))

/-- The Title extraction: the `title:` pattern, then - only when the lowered
text mentions `title` or `name` - the quoted-title, `<title>` tag and
quoted-name fallbacks, in order. -/
def titleOf (cs low : List Char) : Option String :=
  match searchKey ("title".data) cs with
  | some v => some (String.mk (stripChars v))
  | none =>
      if hasSub ("title".data) low ∨ hasSub ("name".data) low then
        match searchQuoted ("title".data) cs with
        | some v => some (String.mk (stripChars v))
        | none =>
            match searchHtmlTitle cs with
            | some v => some (String.mk (stripChars v))
            | none =>
                (searchQuoted ("name".data) cs).map
                  (fun v => String.mk (stripChars v))
      else none

/-- The Artist extraction, with the `egger`-context fallback to the fixed
placeholder literal. -/
def artistOf (cs low : List Char) : Option String :=
  let a0 := fieldPrimary ("artist".data) ["artist", "company", "brand"] cs
  if optFalsy a0 ∧ hasSub ("egger".data) low then some "[Your Company Name]"
  else a0

/-- `_parse_ai_response_for_metadata(ai_response)` with `ctx` standing for
`self.current_filename_data` when set: Description by longest qualifying
line, Keywords by whitelist intersection, Title/Artist/Make/Model by the
primary `key:` pattern with quoted fallbacks, then the egger placeholder for
Artist and, when Make and Model both ended falsy, the filename-context
fallback. -/
def parseAiResponse (ctx : Option FilenameData) (text : String) : ParsedMeta :=
  let cs := text.data
  let low := cs.map Char.toLower
  let make0 := fieldPrimary ("make".data) ["make", "product code", "code"] cs
  let model0 := fieldPrimary ("model".data) ["model", "type", "product type"] cs
  let mm :=
    if optFalsy make0 ∧ optFalsy model0 then
      match ctx with
      | some fd =>
          (if ¬ (fd.code = "") then some fd.code else make0,
            if ¬ (fd.type = "") then some fd.type else model0)
      | none => (make0, model0)
    else (make0, model0)
  { title := titleOf cs low
    description := descriptionOf cs
    keywords := keywordsOf low
    artist := artistOf cs low
    make := mm.1
    model := mm.2 }

/-! ## Tool-augmented mode: the folder-listing tool and the local router -/

/-- Decimal rendering of a natural number (Python `str(n)` and f-string
interpolation of an integer). -/
def natStr (n : Nat) : List Char :=
  if n < 10 then [Char.ofNat (48 + n)]
  else natStr (n / 10) ++ [Char.ofNat (48 + n % 10)]
termination_by n
decreasing_by
  simp_wf
  omega

/-- `f"{v:.1f}"` for a file size carried in tenths of a KB: the program only
renders sizes through this one-decimal format, so a size is modelled by its
rendered tenths. -/
def fmtTenths (t : Nat) : List Char :=
  natStr (t / 10) ++ '.' :: natStr (t % 10)

/-- Index of the first occurrence of `sep` in `l`, scanning left to right. -/
def findSub (sep : List Char) : List Char → Option Nat
  | [] => if sep = [] then some 0 else none
  | c :: cs =>
      if sep.isPrefixOf (c :: cs) then some 0
      else (findSub sep cs).map (fun i => i + 1)

/-- Python `str.split(sep)` for a non-empty separator string. -/
def splitOnSub (sep : List Char) (l : List Char) : List (List Char) :=
  if hsep : sep = [] then [l]
  else
    match hf : findSub sep l with
    | none => [l]
    | some i => l.take i :: splitOnSub sep (l.drop (i + sep.length))
termination_by l.length
decreasing_by
  simp only [List.length_drop]
  have hl : ¬ l = [] := by
    intro he
    subst he
    simp [findSub, hsep] at hf
  have h1 : 0 < sep.length := List.length_pos.mpr hsep
  have h2 : 0 < l.length := List.length_pos.mpr hl
  omega

/-- Python `str.replace(old, new)`. -/
def pyReplace (sep repl l : List Char) : List Char :=
  joinWith repl (splitOnSub sep l)

def digitsVal (l : List Char) : Nat :=
  l.foldl (fun a c => a * 10 + (c.toNat - 48)) 0

/-- Python `float(s)` for the decimal strings this program renders: digits
with an optional fractional part, kept in tenths.  Fractional digits past the
first, which the program's own one-decimal formatter never emits, are
truncated; `none` models the `ValueError`. -/
def pyFloatTenths (s : List Char) : Option Nat :=
  let t := stripChars s
  match splitOnChar '.' t with
  | [ip] =>
      if ¬ (ip = []) ∧ ip.all Char.isDigit then some (digitsVal ip * 10) else none
  | [ip, fp] =>
      if (¬ (ip = []) ∨ ¬ (fp = [])) ∧ ip.all Char.isDigit ∧ fp.all Char.isDigit then
        some (digitsVal ip * 10 + (match fp with | d :: _ => d.toNat - 48 | [] => 0))
      else none
  | _ => none

/-- Python `s.split(sep, 1)` for a one-character separator: `none` when the
separator is absent (the `len(parts) > 1` check fails). -/
def splitOnceChar (sep : Char) : List Char → Option (List Char × List Char)
  | [] => none
  | c :: cs =>
      if c = sep then some ([], cs)
      else (splitOnceChar sep cs).map (fun p => (c :: p.1, p.2))

/-- The numbered file lines of the report (`enumerate(unique_files, 1)`). -/
def fileLines (sizeOf : String → Nat) : Nat → List String → List String
  | _, [] => []
  | i, p :: ps =>
      (String.mk (natStr i) ++ ". " ++ p ++ " ("
          ++ String.mk (fmtTenths (sizeOf p)) ++ " KB)")
        :: fileLines sizeOf (i + 1) ps

/-- `_tool_list_folder_contents`: when a folder is loaded, dedup the image
paths with `set()`, sort them, and render the `Folder:`/`Total files:` header
plus one numbered line per file with its basename and one-decimal size.  The
entries of one loaded folder are their own basenames. -/
def toolListFolderContents (folderName : String) (paths : List String)
    (sizeOf : String → Nat) : String :=
  if paths = [] then "No folder loaded. Please select a folder first."
  else
    let unique := (paths.dedup).mergeSort (fun a b => a ≤ b)
    "Folder: " ++ folderName ++ "\nTotal files: "
      ++ String.mk (natStr unique.length) ++ "\n\nFiles:\n"
      ++ String.mk (joinWith ['\n'] ((fileLines sizeOf 1 unique).map String.data))

/-- What `_analyze_tool_results_and_respond` recovers from the report
string. -/
structure FolderInfo where
  folderName : String
  totalFiles : Nat
  files : List (String × Nat)
deriving DecidableEq, Repr

/-- Parsing one `"i. name (size KB)"` line of the report (the body of the
`line[0].isdigit()` branch): split off the index at the first dot, strip,
split the name from the size at `' ('`, drop the `' KB)'` suffix and parse
the float; a `ValueError` falls back to the whole stripped line with size
0. -/
def parseFileLine (line : List Char) : Option (String × Nat) :=
  match splitOnceChar '.' line with
  | none => none
  | some pr =>
      let fi := stripChars pr.2
      if hasSub (" (".data) fi ∧ hasSub (" KB)".data) fi then
        let parts := splitOnSub (" (".data) fi
        let sizeStr := pyReplace (" KB)".data) [] (parts.getD 1 [])
        match pyFloatTenths sizeStr with
        | some t => some (String.mk (parts.getD 0 []), t)
        | none => some (String.mk fi, 0)
      else none

/-- The report-parsing loop of `_analyze_tool_results_and_respond`, threading
(folder name, total files, parsed file entries); `none` models the `int()`
`ValueError` escaping to the function's `except` arm. -/
def parseFolderLines : List (List Char) → String × Nat × List (String × Nat)
    → Option (String × Nat × List (String × Nat))
  | [], st => some st
  | line :: rest, st =>
      if ("Folder:".data).isPrefixOf line then
        parseFolderLines rest
          (String.mk (stripChars (pyReplace ("Folder:".data) [] line)),
            st.2.1, st.2.2)
      else if ("Total files:".data).isPrefixOf line then
        match pyIntOpt
            (String.mk (stripChars (pyReplace ("Total files:".data) [] line))) with
        | some n => parseFolderLines rest (st.1, n, st.2.2)
        | none => none
      else if ¬ (stripChars line = []) ∧ (line.headD ' ').isDigit then
        match parseFileLine line with
        | some e => parseFolderLines rest (st.1, st.2.1, st.2.2 ++ [e])
        | none => parseFolderLines rest st
      else parseFolderLines rest st

def parseFolderData (data : String) : Option FolderInfo :=
  (parseFolderLines (splitOnChar '\n' data.data) ("Unknown", 0, [])).map
    (fun st => ⟨st.1, st.2.1, st.2.2⟩)

/-- Python `max(files, key=lambda x: x['size'])`: the first entry of maximal
size. -/
def pyMaxBySize : List (String × Nat) → Option (String × Nat)
  | [] => none
  | h :: t => some (t.foldl (fun best x => if best.2 < x.2 then x else best) h)

/-- Python `min(files, key=lambda x: x['size'])`: the first entry of minimal
size. -/
def pyMinBySize : List (String × Nat) → Option (String × Nat)
  | [] => none
  | h :: t => some (t.foldl (fun best x => if x.2 < best.2 then x else best) h)

/-- The duplicate analysis: compare the parsed filename list against its
`set()` (here `dedup`). -/
def dupResponse (info : FolderInfo) : String :=
  let filenames := info.files.map (fun f => f.1)
  if filenames.length = filenames.dedup.length then
    "No, there are no duplicate files in the '" ++ info.folderName
      ++ "' folder. All " ++ String.mk (natStr info.totalFiles)
      ++ " files have unique names."
  else
    "Yes, there are "
      ++ String.mk (natStr (filenames.length - filenames.dedup.length))
      ++ " duplicate files in the '" ++ info.folderName
      ++ "' folder. The folder contains "
      ++ String.mk (natStr filenames.dedup.length)
      ++ " unique files out of " ++ String.mk (natStr info.totalFiles)
      ++ " total files."

def largestResponse (info : FolderInfo) : String :=
  match pyMaxBySize info.files with
  | some f =>
      "The largest file in the '" ++ info.folderName ++ "' folder is '"
        ++ f.1 ++ "' at " ++ String.mk (fmtTenths f.2) ++ " KB."
  | none => "No files found to analyze."

def smallestResponse (info : FolderInfo) : String :=
  match pyMinBySize info.files with
  | some f =>
      "The smallest file in the '" ++ info.folderName ++ "' folder is '"
        ++ f.1 ++ "' at " ++ String.mk (fmtTenths f.2) ++ " KB."
  | none => "No files found to analyze."

def listResponse (info : FolderInfo) : String :=
  "The '" ++ info.folderName ++ "' folder contains "
    ++ String.mk (natStr info.totalFiles) ++ " files:\n\n"
    ++ String.join ((info.files.enum).map (fun e =>
        String.mk (natStr (e.1 + 1)) ++ ". " ++ e.2.1 ++ " ("
          ++ String.mk (fmtTenths e.2.2) ++ " KB)\n"))

def countResponse (info : FolderInfo) : String :=
  "The '" ++ info.folderName ++ "' folder contains "
    ++ String.mk (natStr info.totalFiles) ++ " files."

def defaultResponse (info : FolderInfo) (folderData : String) : String :=
  "The '" ++ info.folderName ++ "' folder contains "
    ++ String.mk (natStr info.totalFiles)
    ++ " files. Here are the details:\n\n" ++ folderData

/-- The keyword router of `_analyze_tool_results_and_respond`: the source's
`if/elif` chain over the lowered user question. -/
def routeAnswer (userMessage : String) (info : FolderInfo)
    (folderData : String) : String :=
  let u := pyLower userMessage
  if hasSub ("duplicate".data) u then dupResponse info
  else if hasSub ("largest".data) u ∨ hasSub ("biggest".data) u then
    largestResponse info
  else if hasSub ("smallest".data) u then smallestResponse info
  else if hasSub ("list".data) u ∨ hasSub ("files".data) u then
    listResponse info
  else if hasSub ("count".data) u ∨ hasSub ("how many".data) u then
    countResponse info
  else defaultResponse info folderData

/-- `_analyze_tool_results_and_respond`: find the first tool result that
looks like a folder report, parse it, and route on the user's question. -/
def analyzeToolResults (userMessage : String) (toolResults : List String) : String :=
  match toolResults.find? (fun r =>
      hasSub ("Folder:".data) r.data ∧ hasSub ("Total files:".data) r.data) with
  | none => "Tool execution completed but no folder data was returned."
  | some folderData =>
      match parseFolderData folderData with
      | none => "Error analyzing tool results: invalid folder report"
      | some info => routeAnswer userMessage info folderData

inductive AgentAction
  | executeToolCall (name : String)
  | modelRequest
  | localSynthesis
deriving DecidableEq, Repr

/-- The actions `_process_tool_calls` performs once the model has returned
tool-call requests: execute each named local tool in order, then format the
tool results directly - the function performs no second model request. -/
def processToolCallsTrace (toolCallNames : List String) : List AgentAction :=
  (toolCallNames.map (fun n => AgentAction.executeToolCall n))
    ++ [AgentAction.localSynthesis]

/-- The value `_process_tool_calls` returns: the local analysis of the
tool-role message contents against the user's original question, or the
fixed sentence when no tool produced a result. -/
def processToolCallsResult (userMessage : String)
    (toolResults : List String) : String :=
  if ¬ (toolResults = []) then analyzeToolResults userMessage toolResults
  else "Tool execution completed but no results were returned."

theorem runBatchLoop_append (outcomes : List ImageOutcome) (o : ImageOutcome) :
    runBatchLoop (outcomes ++ [o]) = stepBatch (runBatchLoop outcomes) o := by
  simp [runBatchLoop, List.foldl_append]

theorem runBatchLoop_counts (outcomes : List ImageOutcome) :
    (runBatchLoop outcomes).successful
        = (outcomes.filter (fun o => o = .success)).length
      ∧ (runBatchLoop outcomes).failed
        = (outcomes.filter (fun o => ¬ (o = .success))).length := by
  suffices h : ∀ c : BatchCounts,
      (outcomes.foldl stepBatch c).successful
          = c.successful + (outcomes.filter (fun o => o = .success)).length
        ∧ (outcomes.foldl stepBatch c).failed
          = c.failed + (outcomes.filter (fun o => ¬ (o = .success))).length by
    have h0 := h ⟨0, 0, 0⟩
    simpa [runBatchLoop] using h0
  induction outcomes with
  | nil => intro c; simp
  | cons o rest ih =>
      intro c
      cases o <;>
        simp [stepBatch, List.filter, (ih _).1, (ih _).2] <;> omega

/-! ### Round-trip lemmas for the two byte encodings on ASCII values -/

theorem utf16leChar_ascii (c : Char) (h : c.toNat < 128) :
    utf16leChar c = [c.toNat, 0] := by
  unfold utf16leChar
  rw [if_pos (by omega)]
  simp [Nat.mod_eq_of_lt (by omega : c.toNat < 256),
    Nat.div_eq_of_lt (by omega : c.toNat < 256)]

theorem utf16leDecode_encode_ascii (l : List Char) (h : ∀ c ∈ l, c.toNat < 128) :
    utf16leDecode (l.foldr (fun c acc => utf16leChar c ++ acc) []) = l := by
  induction l with
  | nil => exact utf16leDecode.eq_1
  | cons c cs ih =>
      have hc : c.toNat < 128 := h c (List.mem_cons_self c cs)
      have hrest := ih (fun x hx => h x (List.mem_cons_of_mem c hx))
      rw [List.foldr_cons, utf16leChar_ascii c hc, List.cons_append,
        List.cons_append, List.nil_append]
      cases cs with
      | nil =>
          simp only [List.foldr_nil]
          rw [utf16leDecode.eq_4 _ _ _ (by intro b2 b3 r2 hh; cases hh)]
          rw [if_neg (by omega), if_neg (by omega)]
          rw [show c.toNat + 256 * 0 = c.toNat from by omega, Char.ofNat_toNat,
            utf16leDecode.eq_1]
      | cons c2 cs2 =>
          have hc2 : c2.toNat < 128 := h c2 (by simp)
          rw [List.foldr_cons, utf16leChar_ascii c2 hc2, List.cons_append,
            List.cons_append, List.nil_append]
          rw [utf16leDecode.eq_3]
          rw [if_neg (by omega), if_neg (by omega)]
          rw [show c.toNat + 256 * 0 = c.toNat from by omega, Char.ofNat_toNat]
          rw [List.foldr_cons, utf16leChar_ascii c2 hc2, List.cons_append,
            List.cons_append, List.nil_append] at hrest
          rw [hrest]

theorem utf8Char_ascii (c : Char) (h : c.toNat < 128) : utf8Char c = [c.toNat] := by
  unfold utf8Char
  rw [if_pos (by omega)]

theorem utf8Decode_encode_ascii (l : List Char) (h : ∀ c ∈ l, c.toNat < 128) :
    utf8Decode (l.foldr (fun c acc => utf8Char c ++ acc) []) = l := by
  induction l with
  | nil => exact utf8Decode.eq_1
  | cons c cs ih =>
      have hc : c.toNat < 128 := h c (List.mem_cons_self c cs)
      have hrest := ih (fun x hx => h x (List.mem_cons_of_mem c hx))
      rw [List.foldr_cons, utf8Char_ascii c hc, List.cons_append, List.nil_append]
      rw [utf8Decode.eq_2, if_pos hc, Char.ofNat_toNat, hrest]

/-- An ASCII value never encodes to bytes that begin with the BOM, so
`save_simple_jpeg_metadata` always prepends one. -/
theorem encodeUtf16WithBom_ascii (v : String) (h : asciiStr v) :
    encodeUtf16WithBom v = bomBytes ++ utf16leEncode v := by
  unfold encodeUtf16WithBom
  rw [if_neg]
  intro hbom
  cases hv : v.data with
  | nil => rw [utf16leEncode, hv] at hbom; simp [bomBytes] at hbom
  | cons c cs =>
      have hc : c.toNat < 128 := h c (by rw [hv]; exact List.mem_cons_self c cs)
      rw [utf16leEncode, hv, List.foldr_cons, utf16leChar_ascii c hc] at hbom
      simp [bomBytes] at hbom

/-- The BOM the simple writer prepends is exactly what the reader strips. -/
theorem decodeTag_utf16_bom (tag : Nat) (htag : tag = 40091 ∨ tag = 40094)
    (v : String) (h : asciiStr v) :
    decodeTagBytes tag (encodeUtf16WithBom v) = v := by
  rw [encodeUtf16WithBom_ascii v h]
  unfold decodeTagBytes
  rw [if_pos htag]
  have htake : (bomBytes ++ utf16leEncode v).take 2 = bomBytes := by
    simp [bomBytes]
  rw [if_pos htake]
  have hdrop : (bomBytes ++ utf16leEncode v).drop 2 = utf16leEncode v := by
    simp [bomBytes]
  rw [hdrop]
  unfold utf16leEncode
  rw [utf16leDecode_encode_ascii v.data h]

theorem decodeTag_utf8 (tag : Nat) (htag : ¬ (tag = 40091 ∨ tag = 40094))
    (v : String) (h : asciiStr v) :
    decodeTagBytes tag (utf8Encode v) = v := by
  unfold decodeTagBytes
  rw [if_neg htag]
  unfold utf8Encode
  rw [utf8Decode_encode_ascii v.data h]

/-! ### Dictionary lemmas for the EXIF store -/

theorem getTag_setTag (s : ExifStore) (t t' : Nat) (v : List Nat) :
    getTag (setTag s t v) t' = if t' = t then some v else getTag s t' := by
  by_cases h : t' = t
  · subst h
    simp [getTag, setTag, List.find?]
  · simp only [getTag, setTag, List.find?, if_neg h]
    have hhead : (decide ((t, v).1 = t')) = false := by
      simp
      exact fun hh => h hh.symm
    rw [hhead]
    congr 1
    induction s with
    | nil => rfl
    | cons e rest ih =>
        by_cases he : e.1 = t
        · have h1 : (decide (¬ (e.1 = t))) = false := by simp [he]
          have h2 : (decide (e.1 = t')) = false := by
            simp
            rw [he]
            exact fun hh => h hh.symm
          simp only [List.filter, h1, List.find?, h2]
          exact ih
        · have h1 : (decide (¬ (e.1 = t))) = true := by simp [he]
          simp only [List.filter, h1, List.find?]
          cases hd : (decide (e.1 = t')) with
          | true => rfl
          | false => exact ih

theorem getTag_putField_some (s : ExifStore) (t : Nat) (enc : String → List Nat)
    (v : String) : getTag (putField s t enc (some v)) t = some (enc v) := by
  simp [putField, getTag_setTag]

theorem getTag_putField_ne (s : ExifStore) (t t' : Nat) (enc : String → List Nat)
    (o : Option String) (h : t' ≠ t) :
    getTag (putField s t enc o) t' = getTag s t' := by
  cases o with
  | none => rfl
  | some v => simp [putField, getTag_setTag, h]

theorem getTag_empty (t : Nat) : getTag ([] : ExifStore) t = none := rfl

theorem getTag_putField_hit (s : ExifStore) (t : Nat) (enc : String → List Nat)
    (o : Option String) (hs : getTag s t = none) :
    getTag (putField s t enc o) t = o.map enc := by
  cases o with
  | none => exact hs
  | some v => rw [getTag_putField_some]; rfl

theorem mapDecode_utf16 (o : Option String) (ho : asciiOpt o) (t : Nat)
    (ht : t = 40091 ∨ t = 40094) :
    (o.map encodeUtf16WithBom).map (decodeTagBytes t) = o := by
  cases o with
  | none => rfl
  | some v =>
      show some (decodeTagBytes t (encodeUtf16WithBom v)) = some v
      rw [decodeTag_utf16_bom t ht v ho]

theorem mapDecode_utf8 (o : Option String) (ho : asciiOpt o) (t : Nat)
    (ht : ¬ (t = 40091 ∨ t = 40094)) :
    (o.map utf8Encode).map (decodeTagBytes t) = o := by
  cases o with
  | none => rfl
  | some v =>
      show some (decodeTagBytes t (utf8Encode v)) = some v
      rw [decodeTag_utf8 t ht v ho]

/-- Reading an empty image's EXIF block back after `save_simple_jpeg_metadata`
returns, for each of the six tags, exactly the written field. -/
theorem getTag_saveSimple (r : MetadataRecord) :
    getTag (saveSimpleJpegMetadata r ([] : ExifStore)) 40091
        = r.xpTitle.map encodeUtf16WithBom
      ∧ getTag (saveSimpleJpegMetadata r ([] : ExifStore)) 270
        = r.imageDescription.map utf8Encode
      ∧ getTag (saveSimpleJpegMetadata r ([] : ExifStore)) 40094
        = r.xpKeywords.map encodeUtf16WithBom
      ∧ getTag (saveSimpleJpegMetadata r ([] : ExifStore)) 315
        = r.artist.map utf8Encode
      ∧ getTag (saveSimpleJpegMetadata r ([] : ExifStore)) 271
        = r.make.map utf8Encode
      ∧ getTag (saveSimpleJpegMetadata r ([] : ExifStore)) 272
        = r.model.map utf8Encode := by
  refine ⟨?_, ?_, ?_, ?_, ?_, ?_⟩ <;>
    (simp only [saveSimpleJpegMetadata]
     repeat rw [getTag_putField_ne _ _ _ _ _ (by decide)]
     rw [getTag_putField_hit]
     repeat rw [getTag_putField_ne _ _ _ _ _ (by decide)]
     rfl)

/-- The same per-tag readback for `_save_jpeg_metadata_direct` (no BOM added
on the UTF-16LE fields). -/
theorem getTag_saveDirect (r : MetadataRecord) :
    getTag (saveJpegMetadataDirectStore r ([] : ExifStore)) 40091
        = r.xpTitle.map utf16leEncode
      ∧ getTag (saveJpegMetadataDirectStore r ([] : ExifStore)) 270
        = r.imageDescription.map utf8Encode
      ∧ getTag (saveJpegMetadataDirectStore r ([] : ExifStore)) 40094
        = r.xpKeywords.map utf16leEncode
      ∧ getTag (saveJpegMetadataDirectStore r ([] : ExifStore)) 315
        = r.artist.map utf8Encode
      ∧ getTag (saveJpegMetadataDirectStore r ([] : ExifStore)) 271
        = r.make.map utf8Encode
      ∧ getTag (saveJpegMetadataDirectStore r ([] : ExifStore)) 272
        = r.model.map utf8Encode := by
  refine ⟨?_, ?_, ?_, ?_, ?_, ?_⟩ <;>
    (simp only [saveJpegMetadataDirectStore]
     repeat rw [getTag_putField_ne _ _ _ _ _ (by decide)]
     rw [getTag_putField_hit]
     repeat rw [getTag_putField_ne _ _ _ _ _ (by decide)]
     rfl)

/-- JPEG backend round trip: persisting an ASCII record into an empty EXIF
block and reading it back through `load_simple_metadata` returns the record
unchanged (the reader strips the BOM the writer added). -/
theorem loadSimple_saveSimple (r : MetadataRecord) (h : r.ascii) :
    loadSimpleRecord (saveSimpleJpegMetadata r ([] : ExifStore)) = r := by
  obtain ⟨h1, h2, h3, h4, h5, h6⟩ := h
  obtain ⟨e1, e2, e3, e4, e5, e6⟩ := getTag_saveSimple r
  unfold loadSimpleRecord
  rw [e1, e2, e3, e4, e5, e6]
  rw [mapDecode_utf16 _ h1 _ (by decide), mapDecode_utf8 _ h2 _ (by decide),
    mapDecode_utf16 _ h3 _ (by decide), mapDecode_utf8 _ h4 _ (by decide),
    mapDecode_utf8 _ h5 _ (by decide), mapDecode_utf8 _ h6 _ (by decide)]

theorem fsGet_fsSet_eq (s : FsState) (p : String) (d : FileData) :
    fsGet (fsSet s p d) p = some d := by
  simp [fsGet, fsSet, List.find?]

theorem fsGet_fsSet_ne (s : FsState) (p q : String) (d : FileData) (h : ¬ q = p) :
    fsGet (fsSet s p d) q = fsGet s q := by
  simp only [fsGet, fsSet, List.find?]
  have hhead : (decide ((p, d).1 = q)) = false := by
    simp
    exact fun hh => h hh.symm
  rw [hhead]
  congr 1
  induction s with
  | nil => rfl
  | cons e rest ih =>
      by_cases he : e.1 = p
      · have hf : (decide (¬ (e.1 = p))) = false := by simp [he]
        have h2 : (decide (e.1 = q)) = false := by
          simp
          rw [he]
          exact fun hh => h hh.symm
        simp only [List.filter, hf, List.find?, h2]
        exact ih
      · have hf : (decide (¬ (e.1 = p))) = true := by simp [he]
        simp only [List.filter, hf, List.find?]
        cases hd : (decide (e.1 = q)) with
        | true => rfl
        | false => exact ih

theorem fsGet_fsDel_ne (s : FsState) (p q : String) (h : ¬ q = p) :
    fsGet (fsDel s p) q = fsGet s q := by
  induction s with
  | nil => rfl
  | cons e rest ih =>
      by_cases he : e.1 = p
      · have hf : (decide (¬ (e.1 = p))) = false := by simp [he]
        have h2 : (decide (e.1 = q)) = false := by
          simp
          rw [he]
          exact fun hh => h hh.symm
        simp only [fsDel, List.filter, hf, fsGet, List.find?, h2]
        exact ih
      · have hf : (decide (¬ (e.1 = p))) = true := by simp [he]
        simp only [fsDel, List.filter, hf, fsGet, List.find?]
        cases hd : (decide (e.1 = q)) with
        | true => rfl
        | false => exact ih

/-- Crash safety of the copy-temp-replace discipline of `save_simple_metadata`
when `shutil.move` is an `os.rename`: at every crash point the original path
holds either its old bytes (any crash up to and including the final rename)
or, once the trace has fully run, the new bytes — never a corrupted
intermediate. -/
theorem simpleSaveTrace_crashSafe (orig temp : String) (old new : FileData)
    (s : FsState) (hneq : ¬ temp = orig) (hold : fsGet s orig = some old)
    (k : Nat) :
    fsGet (runCrash s (simpleSaveTrace true orig temp new) k) orig = some old
      ∨ fsGet (runCrash s (simpleSaveTrace true orig temp new) k) orig = some new := by
  match k with
  | 0 =>
      left
      show fsGet (crashOp s (.copyFile orig temp)) orig = some old
      rw [crashOp, fsGet_fsSet_ne _ _ _ _ (fun hh => hneq hh.symm), hold]
  | 1 =>
      left
      show fsGet (crashOp (applyOp s (.copyFile orig temp)) (.writeFile temp new)) orig
        = some old
      rw [crashOp, fsGet_fsSet_ne _ _ _ _ (fun hh => hneq hh.symm)]
      rw [applyOp, hold, fsGet_fsSet_ne _ _ _ _ (fun hh => hneq hh.symm), hold]
  | 2 =>
      left
      show fsGet (crashOp (applyOp (applyOp s (.copyFile orig temp))
        (.writeFile temp new)) (.moveFile temp orig)) orig = some old
      rw [crashOp, applyOp, applyOp, hold, fsGet_fsSet_ne _ _ _ _
        (fun hh => hneq hh.symm), fsGet_fsSet_ne _ _ _ _ (fun hh => hneq hh.symm),
        hold]
  | (n + 3) =>
      right
      show fsGet (runCrash (applyOp (applyOp (applyOp s (.copyFile orig temp))
        (.writeFile temp new)) (.moveFile temp orig)) [] n) orig = some new
      rw [runCrash]
      rw [applyOp, applyOp, hold]
      rw [applyOp, fsGet_fsSet_eq]
      simp only [fsGet, fsDel, fsSet]
      have haux : ∀ l : List (String × FileData),
          (((orig, new) :: l.filter (fun e => ¬ (e.1 = orig))).filter
            (fun e => ¬ (e.1 = temp))).find? (fun e => e.1 = orig)
            = some (orig, new) := by
        intro l
        have hne : ¬ ((orig, new) : String × FileData).1 = temp :=
          fun hh => hneq hh.symm
        simp [List.filter, List.find?, hne]
      rw [haux]
      rfl

/-- Before the replace step, the fallback trace leaves the original alone. -/
theorem simpleSaveTrace_fallback_pre (orig temp : String) (old new : FileData)
    (s : FsState) (hneq : ¬ temp = orig) (hold : fsGet s orig = some old)
    (k : Nat) (hk : k < 2) :
    fsGet (runCrash s (simpleSaveTrace false orig temp new) k) orig = some old := by
  match k with
  | 0 =>
      show fsGet (crashOp s (.copyFile orig temp)) orig = some old
      rw [crashOp, fsGet_fsSet_ne _ _ _ _ (fun hh => hneq hh.symm), hold]
  | 1 =>
      show fsGet (crashOp (applyOp s (.copyFile orig temp)) (.writeFile temp new)) orig
        = some old
      rw [crashOp, fsGet_fsSet_ne _ _ _ _ (fun hh => hneq hh.symm)]
      rw [applyOp, hold, fsGet_fsSet_ne _ _ _ _ (fun hh => hneq hh.symm), hold]
  | n + 2 => omega

/-- A crash in the middle of the fallback's `copy2(temp, original)` leaves the
original corrupted: the copy-temp-replace discipline is not crash-safe when
`shutil.move` degrades to copy-and-delete. -/
theorem simpleSaveTrace_fallback_corrupt (orig temp : String) (old new : FileData)
    (s : FsState) (hneq : ¬ temp = orig) (hold : fsGet s orig = some old) :
    fsGet (runCrash s (simpleSaveTrace false orig temp new) 2) orig
      = some FileData.corrupted := by
  show fsGet (crashOp (applyOp (applyOp s (.copyFile orig temp))
    (.writeFile temp new)) (.copyFile temp orig)) orig = some FileData.corrupted
  rw [crashOp, fsGet_fsSet_eq]

/-- Once the fallback's copy has completed, the original holds the new bytes. -/
theorem simpleSaveTrace_fallback_post (orig temp : String) (old new : FileData)
    (s : FsState) (hneq : ¬ temp = orig) (hold : fsGet s orig = some old)
    (k : Nat) (hk : 3 ≤ k) :
    fsGet (runCrash s (simpleSaveTrace false orig temp new) k) orig = some new := by
  have hafter : ∀ s2 : FsState,
      applyOp (applyOp (applyOp s (.copyFile orig temp)) (.writeFile temp new))
        (.copyFile temp orig) = s2 →
      fsGet s2 orig = some new := by
    intro s2 hs2
    rw [← hs2]
    show fsGet (applyOp (fsSet (applyOp s (.copyFile orig temp)) temp new)
      (.copyFile temp orig)) orig = some new
    rw [applyOp, fsGet_fsSet_eq, fsGet_fsSet_eq]
  match k with
  | 3 =>
      show fsGet (crashOp (applyOp (applyOp (applyOp s (.copyFile orig temp))
        (.writeFile temp new)) (.copyFile temp orig)) (.deleteFile temp)) orig
        = some new
      rw [crashOp]
      exact hafter _ rfl
  | n + 4 =>
      show fsGet (runCrash (applyOp (applyOp (applyOp (applyOp s
        (.copyFile orig temp)) (.writeFile temp new)) (.copyFile temp orig))
        (.deleteFile temp)) [] n) orig = some new
      rw [runCrash]
      rw [show applyOp (applyOp (applyOp (applyOp s (.copyFile orig temp))
          (.writeFile temp new)) (.copyFile temp orig)) (.deleteFile temp)
        = fsDel (applyOp (applyOp (applyOp s (.copyFile orig temp))
          (.writeFile temp new)) (.copyFile temp orig)) temp from rfl]
      rw [fsGet_fsDel_ne _ _ _ (fun hh => hneq hh.symm)]
      exact hafter _ rfl

/-- The UTF-16LE bytes of an ASCII value never begin with the BOM, so the
batch direct path stores BOM-less tag bytes. -/
theorem utf16leEncode_ascii_no_bom (v : String) (h : asciiStr v) :
    ¬ (utf16leEncode v).take 2 = bomBytes := by
  intro hbom
  cases hv : v.data with
  | nil => rw [utf16leEncode, hv] at hbom; simp [bomBytes] at hbom
  | cons c cs =>
      have hc : c.toNat < 128 := h c (by rw [hv]; exact List.mem_cons_self c cs)
      rw [utf16leEncode, hv, List.foldr_cons, utf16leChar_ascii c hc] at hbom
      simp [bomBytes] at hbom

/-- Whatever the value, the simple writer's UTF-16LE bytes begin with the
2-byte BOM. -/
theorem encodeUtf16WithBom_starts_bom (v : String) :
    (encodeUtf16WithBom v).take 2 = bomBytes := by
  simp only [encodeUtf16WithBom]
  split_ifs with h
  · exact h
  · simp [bomBytes]

theorem quoteArg_ne (v : String) : ¬ quoteArg v = v := by
  intro hq
  have hlen := congrArg String.length hq
  rw [quoteArg, String.length_append, String.length_append] at hlen
  have h1 : ("\"" : String).length = 1 := rfl
  omega

theorem toolGet_toolPut (st : ToolStore) (t v : String) :
    toolGet (toolPut st t v) t = some v := by
  simp [toolGet, toolPut, List.find?]

theorem filterSuccess_split (l : List ImageOutcome) :
    (l.filter (fun o => o = .success)).length
      + (l.filter (fun o => ¬ (o = .success))).length = l.length := by
  induction l with
  | nil => rfl
  | cons o rest ih =>
      by_cases ho : o = .success
      · have h1 : (decide (o = ImageOutcome.success)) = true := by simp [ho]
        have h2 : (decide (¬ (o = ImageOutcome.success))) = false := by simp [ho]
        simp only [List.filter, h1, h2, List.length_cons]
        omega
      · have h1 : (decide (o = ImageOutcome.success)) = false := by simp [ho]
        have h2 : (decide (¬ (o = ImageOutcome.success))) = true := by simp [ho]
        simp only [List.filter, h1, h2, List.length_cons]
        omega

/-! ### The parser yields nothing on a text with no extractable shapes -/

theorem charToNat_ofNat_small (n : Nat) (h : n < 55296) :
    (Char.ofNat n).toNat = n := by
  rw [Char.ofNat, dif_pos (Or.inl h)]
  rfl

theorem toLower_eq_angle (c : Char) (h : c.toLower = '<') : c = '<' := by
  simp only [Char.toLower] at h
  split_ifs at h with hc
  · exfalso
    have h1 := congrArg Char.toNat h
    rw [charToNat_ofNat_small (c.toNat + 32) (by omega)] at h1
    have h2 : ('<' : Char).toNat = 60 := rfl
    omega
  · exact h

theorem matchKeyAt_none (key cs : List Char) (h : ∀ c ∈ cs, ¬ (c = ':')) :
    matchKeyAt key cs = none := by
  unfold matchKeyAt
  split_ifs with hp
  · cases heq : (cs.drop key.length).dropWhile isPySpace with
    | nil => rfl
    | cons c rest =>
        have hc : c ∈ cs := by
          have h1 : c ∈ (cs.drop key.length).dropWhile isPySpace := by
            rw [heq]
            exact List.mem_cons_self c rest
          exact (List.drop_sublist key.length cs).subset
            ((List.dropWhile_sublist isPySpace).subset h1)
        show (if c = ':' then keyCapture rest else none) = none
        rw [if_neg (h c hc)]
  · rfl

theorem searchKey_none (key cs : List Char) (h : ∀ c ∈ cs, ¬ (c = ':')) :
    searchKey key cs = none := by
  induction cs with
  | nil => rfl
  | cons c rest ih =>
      show (match matchKeyAt key (c :: rest) with
        | some v => some v
        | none => searchKey key rest) = none
      rw [matchKeyAt_none key _ h]
      exact ih (fun x hx => h x (List.mem_cons_of_mem c hx))

theorem matchQuotedAt_none (key cs : List Char)
    (h : ∀ c ∈ cs, ¬ (c = ':') ∧ ¬ (c = '=')) :
    matchQuotedAt key cs = none := by
  unfold matchQuotedAt
  split_ifs with hp
  · cases heq : (skipOptQuote (cs.drop key.length)).dropWhile isPySpace with
    | nil => rfl
    | cons c rest =>
        have hsub : List.Sublist (skipOptQuote (cs.drop key.length))
            (cs.drop key.length) := by
          cases hd : cs.drop key.length with
          | nil => simp [skipOptQuote]
          | cons a t =>
              simp only [skipOptQuote]
              split_ifs with ha
              · exact List.sublist_cons_self a t
              · exact List.Sublist.refl _
        have hc : c ∈ cs := by
          have h1 : c ∈ (skipOptQuote (cs.drop key.length)).dropWhile isPySpace := by
            rw [heq]
            exact List.mem_cons_self c rest
          exact (List.drop_sublist key.length cs).subset
            (hsub.subset ((List.dropWhile_sublist isPySpace).subset h1))
        have hcc : ¬ (c = ':' ∨ c = '=') := by
          rcases h c hc with ⟨h1, h2⟩
          rintro (h3 | h3)
          · exact h1 h3
          · exact h2 h3
        show (if c = ':' ∨ c = '=' then quotedCapture rest else none) = none
        rw [if_neg hcc]
  · rfl

theorem searchQuoted_none (key cs : List Char)
    (h : ∀ c ∈ cs, ¬ (c = ':') ∧ ¬ (c = '=')) :
    searchQuoted key cs = none := by
  induction cs with
  | nil => rfl
  | cons c rest ih =>
      show (match matchQuotedAt key (c :: rest) with
        | some v => some v
        | none => searchQuoted key rest) = none
      rw [matchQuotedAt_none key _ h]
      exact ih (fun x hx => h x (List.mem_cons_of_mem c hx))

theorem searchQuotedList_none (keys : List String) (cs : List Char)
    (h : ∀ c ∈ cs, ¬ (c = ':') ∧ ¬ (c = '=')) :
    searchQuotedList keys cs = none := by
  induction keys with
  | nil => rfl
  | cons k t ih =>
      show (match searchQuoted k.data cs with
        | some v => some v
        | none => searchQuotedList t cs) = none
      rw [searchQuoted_none k.data cs h]
      exact ih

theorem lowerIsPrefix_head (a b : Char) (as bs : List Char)
    (h : lowerIsPrefix (a :: as) (b :: bs) = true) : a.toLower = b.toLower := by
  simp only [lowerIsPrefix, Bool.decide_and, Bool.and_eq_true, decide_eq_true_eq] at h
  exact h.1

theorem matchHtmlTitleAt_none (cs : List Char) (h : ∀ c ∈ cs, ¬ (c = '<')) :
    matchHtmlTitleAt cs = none := by
  unfold matchHtmlTitleAt
  split_ifs with hp
  · exfalso
    cases cs with
    | nil => simp [lowerIsPrefix] at hp
    | cons c rest =>
        have hhead := lowerIsPrefix_head '<' c _ _ hp
        have hl : c.toLower = '<' := by
          rw [← hhead]
          rfl
        exact h c (List.mem_cons_self c rest) (toLower_eq_angle c hl)
  · rfl

theorem searchHtmlTitle_none (cs : List Char) (h : ∀ c ∈ cs, ¬ (c = '<')) :
    searchHtmlTitle cs = none := by
  induction cs with
  | nil => rfl
  | cons c rest ih =>
      show (match matchHtmlTitleAt (c :: rest) with
        | some v => some v
        | none => searchHtmlTitle rest) = none
      rw [matchHtmlTitleAt_none _ h]
      exact ih (fun x hx => h x (List.mem_cons_of_mem c hx))

theorem fieldPrimary_none (key : List Char) (keys : List String) (cs : List Char)
    (h : ∀ c ∈ cs, ¬ (c = ':') ∧ ¬ (c = '=')) :
    fieldPrimary key keys cs = none := by
  unfold fieldPrimary
  rw [searchKey_none key cs (fun c hc => (h c hc).1)]
  rw [searchQuotedList_none keys cs h]
  rfl

theorem descriptionOf_none (cs : List Char)
    (h : ∀ l ∈ (splitOnChar '\n' cs).map stripChars, l.length ≤ 20) :
    descriptionOf cs = none := by
  simp only [descriptionOf]
  have hnil : ((splitOnChar '\n' cs).map stripChars).filter (fun l =>
      ¬ (l = []) ∧ ¬ (("**".data).isPrefixOf l) ∧ ¬ (("###".data).isPrefixOf l)
        ∧ ¬ (("```".data).isPrefixOf l) ∧ 20 < l.length) = [] := by
    rw [List.filter_eq_nil_iff]
    intro l hl
    simp only [decide_eq_true_eq, not_and]
    intro _ _ _ _
    have := h l hl
    omega
  rw [hnil]
  rfl

theorem keywordsOf_none (low : List Char)
    (h : ∀ k ∈ keywordIndicators, hasSub k.data low = false) :
    keywordsOf low = none := by
  unfold keywordsOf
  have hnil : keywordIndicators.filter (fun k => hasSub k.data low) = [] := by
    rw [List.filter_eq_nil_iff]
    intro k hk
    rw [h k hk]
    exact Bool.false_ne_true
  rw [hnil]
  rfl

theorem titleOf_none (cs low : List Char)
    (hc : ∀ c ∈ cs, ¬ (c = ':') ∧ ¬ (c = '=') ∧ ¬ (c = '<')) :
    titleOf cs low = none := by
  unfold titleOf
  rw [searchKey_none _ cs (fun c h => (hc c h).1)]
  rw [searchQuoted_none _ cs (fun c h => ⟨(hc c h).1, (hc c h).2.1⟩)]
  rw [searchHtmlTitle_none cs (fun c h => (hc c h).2.2)]
  rw [searchQuoted_none _ cs (fun c h => ⟨(hc c h).1, (hc c h).2.1⟩)]
  exact ite_self none

theorem artistOf_plain (cs low : List Char)
    (hc : ∀ c ∈ cs, ¬ (c = ':') ∧ ¬ (c = '=') )
    (hegger : hasSub ("egger".data) low = false) :
    artistOf cs low = none := by
  unfold artistOf
  rw [fieldPrimary_none _ _ cs hc]
  have hno : ¬ (optFalsy (none : Option String) = true
      ∧ hasSub ("egger".data) low = true) := by
    rintro ⟨_, he⟩
    rw [hegger] at he
    exact Bool.false_ne_true he
  rw [if_neg hno]

/-! ### Report rendering and parsing round-trip lemmas -/

theorem natStr_ne_nil (n : Nat) : ¬ natStr n = [] := by
  rw [natStr]
  split_ifs <;> simp

theorem natStr_digit_range (n : Nat) : ∀ c ∈ natStr n, 48 ≤ c.toNat ∧ c.toNat ≤ 57 := by
  induction n using Nat.strong_induction_on with
  | _ n ih =>
      intro c hc
      rw [natStr] at hc
      split_ifs at hc with h
      · simp only [List.mem_singleton] at hc
        subst hc
        rw [charToNat_ofNat_small (48 + n) (by omega)]
        omega
      · rw [List.mem_append] at hc
        cases hc with
        | inl hm => exact ih (n / 10) (by omega) c hm
        | inr hm =>
            simp only [List.mem_singleton] at hm
            subst hm
            rw [charToNat_ofNat_small (48 + n % 10) (by omega)]
            omega

theorem digitsVal_append (l1 l2 : List Char) :
    digitsVal (l1 ++ l2) = l2.foldl (fun a c => a * 10 + (c.toNat - 48)) (digitsVal l1) := by
  simp [digitsVal, List.foldl_append]

theorem digitsVal_natStr (n : Nat) : digitsVal (natStr n) = n := by
  induction n using Nat.strong_induction_on with
  | _ n ih =>
      rw [natStr]
      split_ifs with h
      · simp [digitsVal, charToNat_ofNat_small (48 + n) (by omega)]
      · rw [digitsVal_append]
        simp only [List.foldl_cons, List.foldl_nil]
        rw [ih (n / 10) (by omega)]
        rw [charToNat_ofNat_small (48 + n % 10) (by omega)]
        omega

theorem isPySpace_of_digit (c : Char) (h : 48 ≤ c.toNat ∧ c.toNat ≤ 57) :
    isPySpace c = false := by
  simp only [isPySpace, Bool.decide_or, Bool.or_eq_false_iff, decide_eq_false_iff_not]
  refine ⟨?_, ?_, ?_, ?_, ?_, ?_⟩ <;>
    (intro he; subst he; revert h; decide)

theorem natStr_not_space (n : Nat) : ∀ c ∈ natStr n, isPySpace c = false :=
  fun c hc => isPySpace_of_digit c (natStr_digit_range n c hc)

theorem natStr_no_char (n : Nat) (x : Char) (hx : x.toNat < 48 ∨ 57 < x.toNat) :
    ∀ c ∈ natStr n, ¬ c = x := by
  intro c hc he
  subst he
  have := natStr_digit_range n c hc
  omega

theorem natStr_isDigit (n : Nat) : ∀ c ∈ natStr n, c.isDigit = true := by
  intro c hc
  have h := natStr_digit_range n c hc
  simp only [Char.isDigit, Bool.and_eq_true, decide_eq_true_eq]
  have h1 : c.val.toNat = c.toNat := rfl
  constructor
  · show (48 : UInt32) ≤ c.val
    rw [UInt32.le_def, BitVec.le_def]
    exact h.1
  · show c.val ≤ (57 : UInt32)
    rw [UInt32.le_def, BitVec.le_def]
    exact h.2

theorem dropWhile_eq_self_of_all {p : Char → Bool} (l : List Char)
    (h : ∀ c ∈ l, p c = false) : l.dropWhile p = l := by
  cases l with
  | nil => rfl
  | cons c t =>
      rw [List.dropWhile_cons, if_neg]
      rw [h c (List.mem_cons_self c t)]
      simp

theorem stripChars_all_eq_self (l : List Char)
    (h : ∀ c ∈ l, isPySpace c = false) : stripChars l = l := by
  unfold stripChars
  rw [dropWhile_eq_self_of_all l h,
    dropWhile_eq_self_of_all l.reverse (fun c hc => h c (List.mem_reverse.mp hc)),
    List.reverse_reverse]

theorem stripChars_cons_space (c : Char) (l : List Char) (h : isPySpace c = true) :
    stripChars (c :: l) = stripChars l := by
  unfold stripChars
  rw [List.dropWhile_cons, if_pos (by rw [h])]

theorem stripChars_cons_of (a : Char) (t : List Char) (d : Char) (rest : List Char)
    (ha : isPySpace a = false) (hrev : (a :: t).reverse = d :: rest)
    (hd : isPySpace d = false) : stripChars (a :: t) = a :: t := by
  unfold stripChars
  rw [List.dropWhile_cons, if_neg (by rw [ha]; simp)]
  rw [hrev, List.dropWhile_cons, if_neg (by rw [hd]; simp)]
  rw [← hrev, List.reverse_reverse]

theorem stripChars_ne_nil (a : Char) (t : List Char) (ha : isPySpace a = false) :
    ¬ stripChars (a :: t) = [] := by
  intro he
  unfold stripChars at he
  rw [List.dropWhile_cons, if_neg (by rw [ha]; simp)] at he
  rw [List.reverse_eq_nil_iff, List.dropWhile_eq_nil_iff] at he
  have ht := he a (by simp)
  rw [ha] at ht
  exact Bool.false_ne_true ht

theorem splitOnChar_ne_nil (sep : Char) (l : List Char) :
    ¬ splitOnChar sep l = [] := by
  induction l with
  | nil => simp [splitOnChar]
  | cons c cs ih =>
      simp only [splitOnChar]
      split_ifs
      · simp
      · cases h : splitOnChar sep cs <;> simp

theorem splitOnChar_cons_sep (sep : Char) (l : List Char) :
    splitOnChar sep (sep :: l) = [] :: splitOnChar sep l := by
  simp [splitOnChar]

theorem splitOnChar_append_no (sep : Char) (xs ys : List Char)
    (h : ∀ c ∈ xs, ¬ c = sep) :
    splitOnChar sep (xs ++ ys)
      = (xs ++ (splitOnChar sep ys).headD []) :: (splitOnChar sep ys).tail := by
  induction xs with
  | nil =>
      cases hy : splitOnChar sep ys with
      | nil => exact absurd hy (splitOnChar_ne_nil sep ys)
      | cons h0 t => simp [hy]
  | cons c xs' ih =>
      have hc : ¬ c = sep := h c (List.mem_cons_self c xs')
      rw [List.cons_append]
      simp only [splitOnChar, if_neg hc]
      rw [ih (fun x hx => h x (List.mem_cons_of_mem c hx))]
      rfl

theorem splitOnChar_line (sep : Char) (xs ys : List Char)
    (h : ∀ c ∈ xs, ¬ c = sep) :
    splitOnChar sep (xs ++ sep :: ys) = xs :: splitOnChar sep ys := by
  rw [splitOnChar_append_no sep xs (sep :: ys) h, splitOnChar_cons_sep]
  simp

theorem splitOnChar_no (sep : Char) (xs : List Char) (h : ∀ c ∈ xs, ¬ c = sep) :
    splitOnChar sep xs = [xs] := by
  have h2 := splitOnChar_append_no sep xs [] h
  rw [List.append_nil] at h2
  rw [h2]
  simp [splitOnChar]

theorem splitOnChar_joinWith (sep : Char) (lines : List (List Char))
    (hne : ¬ lines = []) (h : ∀ l ∈ lines, ∀ c ∈ l, ¬ c = sep) :
    splitOnChar sep (joinWith [sep] lines) = lines := by
  induction lines with
  | nil => exact absurd rfl hne
  | cons x t ih =>
      cases t with
      | nil =>
          show splitOnChar sep x = [x]
          exact splitOnChar_no sep x (h x (List.mem_cons_self x []))
      | cons y t2 =>
          show splitOnChar sep (x ++ [sep] ++ joinWith [sep] (y :: t2)) = _
          rw [List.append_assoc, List.singleton_append]
          rw [splitOnChar_line sep x _ (h x (List.mem_cons_self x _))]
          rw [ih (by simp) (fun l hl => h l (List.mem_cons_of_mem x hl))]

theorem splitOnceChar_append (sep : Char) (xs ys : List Char)
    (h : ∀ c ∈ xs, ¬ c = sep) :
    splitOnceChar sep (xs ++ sep :: ys) = some (xs, ys) := by
  induction xs with
  | nil => simp [splitOnceChar]
  | cons c xs' ih =>
      have hc : ¬ c = sep := h c (List.mem_cons_self c xs')
      rw [List.cons_append]
      simp only [splitOnceChar, if_neg hc]
      rw [ih (fun x hx => h x (List.mem_cons_of_mem c hx))]
      rfl

theorem isPrefixOf_append_self (a b : List Char) : a.isPrefixOf (a ++ b) = true := by
  induction a with
  | nil => simp [List.isPrefixOf]
  | cons c cs ih => simp [List.isPrefixOf, ih]

theorem isPrefixOf_cons_false (a c : Char) (arest crest : List Char) (h : ¬ a = c) :
    (a :: arest).isPrefixOf (c :: crest) = false := by
  simp [List.isPrefixOf]
  intro he
  exact absurd he h

theorem hasSub_mid (sep xs ys : List Char) : hasSub sep (xs ++ sep ++ ys) = true := by
  induction xs with
  | nil =>
      rw [List.nil_append]
      cases hs : sep ++ ys with
      | nil => simp [hasSub, List.append_eq_nil] at hs ⊢; simp [hs.1]
      | cons c t =>
          rw [hasSub, ← hs]
          simp [isPrefixOf_append_self]
  | cons c xs' ih =>
      rw [List.cons_append, List.cons_append, hasSub]
      simp only [List.append_assoc] at ih ⊢
      simp [ih]

theorem hasSub_skip_front (s0 : Char) (srest xs ys : List Char)
    (h : ∀ c ∈ xs, ¬ c = s0) :
    hasSub (s0 :: srest) (xs ++ ys) = hasSub (s0 :: srest) ys := by
  induction xs with
  | nil => rfl
  | cons c xs' ih =>
      rw [List.cons_append, hasSub]
      rw [isPrefixOf_cons_false s0 c _ _
        (fun he => h c (List.mem_cons_self c xs') he.symm)]
      simp only [Bool.false_eq_true, false_or]
      rw [ih (fun x hx => h x (List.mem_cons_of_mem c hx))]
      simp

theorem hasSub_tail_false (sep : List Char) (c : Char) (cs : List Char)
    (h : hasSub sep (c :: cs) = false) : hasSub sep cs = false := by
  rw [hasSub] at h
  cases hx : hasSub sep cs with
  | false => rfl
  | true => rw [hx] at h; simp at h

theorem hasSub_of_append (sep ys : List Char) : hasSub sep (sep ++ ys) = true := by
  have h := hasSub_mid sep [] ys
  rwa [List.nil_append] at h

theorem hasSub_no_head (s0 : Char) (srest l : List Char)
    (h : ∀ c ∈ l, ¬ c = s0) : hasSub (s0 :: srest) l = false := by
  have h2 := hasSub_skip_front s0 srest l [] h
  rw [List.append_nil] at h2
  rw [h2]
  rfl

theorem hasSub_cons_false (sep : List Char) (c : Char) (cs : List Char)
    (h1 : sep.isPrefixOf (c :: cs) = false) (h2 : hasSub sep cs = false) :
    hasSub sep (c :: cs) = false := by
  rw [hasSub, h1, h2]
  simp

theorem findSub_none_of (sep l : List Char) (h : hasSub sep l = false) :
    findSub sep l = none := by
  induction l with
  | nil =>
      rw [hasSub] at h
      rw [findSub, if_neg]
      intro he
      rw [he] at h
      simp [List.isEmpty] at h
  | cons c cs ih =>
      have hp : sep.isPrefixOf (c :: cs) = false := by
        cases hx : sep.isPrefixOf (c :: cs) with
        | false => rfl
        | true => rw [hasSub, hx] at h; simp at h
      rw [findSub, if_neg (by rw [hp]; simp),
        ih (hasSub_tail_false sep c cs h)]
      rfl

theorem findSub_self_append (sep ys : List Char) (hsep : ¬ sep = []) :
    findSub sep (sep ++ ys) = some 0 := by
  cases sep with
  | nil => exact absurd rfl hsep
  | cons s ss =>
      have hp : (s :: ss).isPrefixOf (s :: (ss ++ ys)) = true := by
        rw [← List.cons_append]
        exact isPrefixOf_append_self (s :: ss) ys
      rw [List.cons_append, findSub, if_pos hp]

theorem findSub_firstChar (s0 : Char) (srest xs ys : List Char)
    (h : ∀ c ∈ xs, ¬ c = s0) :
    findSub (s0 :: srest) (xs ++ (s0 :: srest) ++ ys) = some xs.length := by
  induction xs with
  | nil =>
      rw [List.nil_append]
      exact findSub_self_append (s0 :: srest) ys (by simp)
  | cons c xs' ih =>
      rw [List.cons_append, List.cons_append]
      have hp : (s0 :: srest).isPrefixOf (c :: ((xs' ++ (s0 :: srest)) ++ ys)) = false :=
        isPrefixOf_cons_false s0 c _ _
          (fun he => h c (List.mem_cons_self c xs') he.symm)
      rw [findSub, if_neg (by rw [hp]; simp),
        ih (fun x hx => h x (List.mem_cons_of_mem c hx))]
      rfl

theorem isPrefixOf_two (a b c1 c2 : Char) (rest : List Char) :
    ([a, b]).isPrefixOf (c1 :: c2 :: rest) = ((a == c1) && (b == c2)) := by
  simp [List.isPrefixOf]

theorem findSub_spaceParen (xs ys : List Char)
    (h : hasSub [' ', '('] xs = false) :
    findSub [' ', '('] (xs ++ [' ', '('] ++ ys) = some xs.length := by
  induction xs with
  | nil =>
      rw [List.nil_append]
      exact findSub_self_append _ ys (by simp)
  | cons c xs' ih =>
      have hrec := ih (hasSub_tail_false _ c xs' h)
      rw [List.cons_append, List.cons_append]
      have hp : ([' ', '(']).isPrefixOf (c :: ((xs' ++ [' ', '(']) ++ ys)) = false := by
        cases xs' with
        | nil =>
            show ([' ', '(']).isPrefixOf (c :: ' ' :: '(' :: ys) = false
            rw [isPrefixOf_two]
            simp
        | cons c2 xs'' =>
            have h1 : ([' ', '(']).isPrefixOf (c :: c2 :: xs'') = false := by
              cases hy2 : ([' ', '(']).isPrefixOf (c :: c2 :: xs'') with
              | false => rfl
              | true => rw [hasSub, hy2] at h; simp at h
            rw [isPrefixOf_two] at h1
            show ([' ', '(']).isPrefixOf
              (c :: c2 :: ((xs'' ++ [' ', '(']) ++ ys)) = false
            rw [isPrefixOf_two]
            exact h1
      rw [findSub, if_neg (by rw [hp]; simp), hrec]
      rfl

theorem splitOnSub_of_none (sep l : List Char) (hf : findSub sep l = none) :
    splitOnSub sep l = [l] := by
  unfold splitOnSub
  split_ifs with hsep
  · rfl
  · split
    · rfl
    · rename_i i hsome
      rw [hf] at hsome
      exact absurd hsome (by simp)

theorem splitOnSub_of_some (sep l : List Char) (i : Nat) (hsep : ¬ sep = [])
    (hf : findSub sep l = some i) :
    splitOnSub sep l = l.take i :: splitOnSub sep (l.drop (i + sep.length)) := by
  conv_lhs => rw [splitOnSub.eq_def]
  rw [dif_neg hsep]
  split
  · rename_i hnone
    rw [hf] at hnone
    exact absurd hnone (by simp)
  · rename_i j hsome
    rw [hf] at hsome
    cases hsome
    rfl

theorem splitOnSub_pair (sep xs ys : List Char) (hsep : ¬ sep = [])
    (hf : findSub sep (xs ++ sep ++ ys) = some xs.length)
    (hy : hasSub sep ys = false) :
    splitOnSub sep (xs ++ sep ++ ys) = [xs, ys] := by
  rw [splitOnSub_of_some sep _ xs.length hsep hf]
  have ht : (xs ++ sep ++ ys).take xs.length = xs := by
    rw [List.append_assoc]
    exact List.take_left xs (sep ++ ys)
  have hd : (xs ++ sep ++ ys).drop (xs.length + sep.length) = ys := by
    rw [← List.length_append]
    exact List.drop_left (xs ++ sep) ys
  rw [ht, hd, splitOnSub_of_none sep ys (findSub_none_of sep ys hy)]

theorem splitOnSub_step (sep l : List Char) (i : Nat) (a r : List Char)
    (hsep : ¬ sep = []) (hf : findSub sep l = some i)
    (ht : l.take i = a) (hd : l.drop (i + sep.length) = r) :
    splitOnSub sep l = a :: splitOnSub sep r := by
  rw [splitOnSub_of_some sep l i hsep hf, ht, hd]

theorem pyReplace_pair (sep xs ys : List Char) (hsep : ¬ sep = [])
    (hf : findSub sep (xs ++ sep ++ ys) = some xs.length)
    (hy : hasSub sep ys = false) :
    pyReplace sep [] (xs ++ sep ++ ys) = xs ++ ys := by
  rw [pyReplace, splitOnSub_pair sep xs ys hsep hf hy]
  show xs ++ [] ++ ys = xs ++ ys
  simp

theorem pyIntOpt_natStr (n : Nat) : pyIntOpt (String.mk (natStr n)) = some n := by
  simp only [pyIntOpt]
  rw [stripChars_all_eq_self (natStr n) (natStr_not_space n)]
  rw [if_pos ⟨natStr_ne_nil n, List.all_eq_true.mpr (natStr_isDigit n)⟩]
  show some (digitsVal (natStr n)) = some n
  rw [digitsVal_natStr]

theorem fmtTenths_not_space (t : Nat) : ∀ c ∈ fmtTenths t, isPySpace c = false := by
  intro c hc
  simp only [fmtTenths, List.mem_append, List.mem_cons] at hc
  rcases hc with hm | hm | hm
  · exact natStr_not_space (t / 10) c hm
  · rw [hm]; rfl
  · exact natStr_not_space (t % 10) c hm

theorem fmtTenths_no_char (t : Nat) (x : Char)
    (hx1 : x.toNat < 48 ∨ 57 < x.toNat) (hx2 : ¬ x = '.') :
    ∀ c ∈ fmtTenths t, ¬ c = x := by
  intro c hc
  simp only [fmtTenths, List.mem_append, List.mem_cons] at hc
  rcases hc with hm | hm | hm
  · exact natStr_no_char (t / 10) x hx1 c hm
  · rw [hm]; exact fun he => hx2 he.symm
  · exact natStr_no_char (t % 10) x hx1 c hm

theorem pyFloatTenths_fmtTenths (t : Nat) : pyFloatTenths (fmtTenths t) = some t := by
  simp only [pyFloatTenths]
  rw [stripChars_all_eq_self (fmtTenths t) (fmtTenths_not_space t)]
  have hsplit : splitOnChar '.' (fmtTenths t)
      = [natStr (t / 10), natStr (t % 10)] := by
    rw [fmtTenths,
      splitOnChar_line '.' _ _ (natStr_no_char (t / 10) '.' (Or.inl (by decide))),
      splitOnChar_no '.' _ (natStr_no_char (t % 10) '.' (Or.inl (by decide)))]
  rw [hsplit]
  show (if (¬ (natStr (t / 10) = []) ∨ ¬ (natStr (t % 10) = []))
        ∧ (natStr (t / 10)).all Char.isDigit ∧ (natStr (t % 10)).all Char.isDigit then
      some (digitsVal (natStr (t / 10)) * 10
        + (match natStr (t % 10) with | d :: _ => d.toNat - 48 | [] => 0))
    else none) = some t
  rw [if_pos ⟨Or.inl (natStr_ne_nil _),
    List.all_eq_true.mpr (natStr_isDigit _), List.all_eq_true.mpr (natStr_isDigit _)⟩]
  have hm10 : t % 10 < 10 := Nat.mod_lt t (by decide)
  have hm : natStr (t % 10) = [Char.ofNat (48 + t % 10)] := by
    rw [natStr, if_pos hm10]
  rw [hm]
  show some (digitsVal (natStr (t / 10)) * 10
      + ((Char.ofNat (48 + t % 10)).toNat - 48)) = some t
  rw [digitsVal_natStr, charToNat_ofNat_small (48 + t % 10) (by omega)]
  refine congrArg some ?_
  omega

theorem spaceParen_data : (" (".data) = [' ', '('] := rfl

theorem kbClose_data : (" KB)".data) = [' ', 'K', 'B', ')'] := rfl

theorem parseFileLine_eq_of (line pre post fi : List Char)
    (hsplit : splitOnceChar '.' line = some (pre, post))
    (hfi : stripChars post = fi) :
    parseFileLine line
      = (if hasSub (" (".data) fi ∧ hasSub (" KB)".data) fi then
          match pyFloatTenths (pyReplace (" KB)".data) []
              ((splitOnSub (" (".data) fi).getD 1 [])) with
          | some t => some (String.mk ((splitOnSub (" (".data) fi).getD 0 []), t)
          | none => some (String.mk fi, 0)
        else none) := by
  unfold parseFileLine
  rw [hsplit, ← hfi]

theorem parseFileLine_render (i sz : Nat) (d : Char) (dt : List Char)
    (hd : isPySpace d = false)
    (hnp : hasSub [' ', '('] (d :: dt) = false) :
    parseFileLine (natStr i
        ++ '.' :: ' ' :: ((d :: dt) ++ [' ', '('] ++ fmtTenths sz ++ [' ', 'K', 'B', ')']))
      = some (String.mk (d :: dt), sz) := by
  have hdot : ∀ c ∈ natStr i, ¬ c = '.' := natStr_no_char i '.' (Or.inl (by decide))
  have hc : (d :: dt) ++ [' ', '('] ++ fmtTenths sz ++ [' ', 'K', 'B', ')']
      = d :: (dt ++ [' ', '('] ++ fmtTenths sz ++ [' ', 'K', 'B', ')']) := by
    simp [List.append_assoc]
  have hb : (d :: dt) ++ [' ', '('] ++ fmtTenths sz ++ [' ', 'K', 'B', ')']
      = ((d :: dt) ++ [' ', '('] ++ fmtTenths sz ++ [' ', 'K', 'B']) ++ [')'] := by
    simp [List.append_assoc]
  have hrev : (d :: (dt ++ [' ', '('] ++ fmtTenths sz ++ [' ', 'K', 'B', ')'])).reverse
      = ')' :: ((d :: dt) ++ [' ', '('] ++ fmtTenths sz ++ [' ', 'K', 'B']).reverse := by
    rw [← hc, hb, List.reverse_append]
    rfl
  have hfi : stripChars (' ' :: ((d :: dt) ++ [' ', '('] ++ fmtTenths sz ++ [' ', 'K', 'B', ')']))
      = (d :: dt) ++ [' ', '('] ++ fmtTenths sz ++ [' ', 'K', 'B', ')'] := by
    rw [stripChars_cons_space ' ' _ (by decide), hc]
    exact stripChars_cons_of d _ ')' _ hd hrev (by decide)
  rw [parseFileLine_eq_of _ _ _ _ (splitOnceChar_append '.' (natStr i) _ hdot) hfi]
  rw [spaceParen_data, kbClose_data]
  have hfmtNoSpace : ∀ c ∈ fmtTenths sz, ¬ c = ' ' :=
    fmtTenths_no_char sz ' ' (Or.inl (by decide)) (by decide)
  have hsub1 : hasSub [' ', '('] ((d :: dt) ++ [' ', '('] ++ fmtTenths sz ++ [' ', 'K', 'B', ')']) = true := by
    have h0 := hasSub_mid [' ', '('] (d :: dt) (fmtTenths sz ++ [' ', 'K', 'B', ')'])
    simp only [List.append_assoc] at h0 ⊢
    exact h0
  have hsub2 : hasSub [' ', 'K', 'B', ')'] ((d :: dt) ++ [' ', '('] ++ fmtTenths sz ++ [' ', 'K', 'B', ')']) = true := by
    have h0 := hasSub_mid [' ', 'K', 'B', ')'] ((d :: dt) ++ [' ', '('] ++ fmtTenths sz) []
    rw [List.append_nil] at h0
    simp only [List.append_assoc] at h0 ⊢
    exact h0
  rw [if_pos ⟨hsub1, hsub2⟩]
  have hyno : hasSub [' ', '('] (fmtTenths sz ++ [' ', 'K', 'B', ')']) = false := by
    rw [hasSub_skip_front ' ' ['('] (fmtTenths sz) _ hfmtNoSpace]
    decide
  have hfp : findSub [' ', '('] ((d :: dt) ++ [' ', '('] ++ (fmtTenths sz ++ [' ', 'K', 'B', ')'])) = some (d :: dt).length :=
    findSub_spaceParen (d :: dt) _ hnp
  have hsplit2 : splitOnSub [' ', '('] ((d :: dt) ++ [' ', '('] ++ fmtTenths sz ++ [' ', 'K', 'B', ')'])
      = [d :: dt, fmtTenths sz ++ [' ', 'K', 'B', ')']] := by
    have h0 := splitOnSub_pair [' ', '('] (d :: dt) (fmtTenths sz ++ [' ', 'K', 'B', ')'])
      (by simp) (by simp only [List.append_assoc] at hfp ⊢; exact hfp) hyno
    simp only [List.append_assoc] at h0 ⊢
    exact h0
  rw [hsplit2]
  rw [show ([d :: dt, fmtTenths sz ++ [' ', 'K', 'B', ')']].getD 1 []) = fmtTenths sz ++ [' ', 'K', 'B', ')'] from rfl]
  rw [show ([d :: dt, fmtTenths sz ++ [' ', 'K', 'B', ')']].getD 0 []) = d :: dt from rfl]
  have hrepl : pyReplace [' ', 'K', 'B', ')'] [] (fmtTenths sz ++ [' ', 'K', 'B', ')']) = fmtTenths sz := by
    have hfk : findSub [' ', 'K', 'B', ')'] (fmtTenths sz ++ [' ', 'K', 'B', ')'] ++ []) = some (fmtTenths sz).length :=
      findSub_firstChar ' ' ['K', 'B', ')'] (fmtTenths sz) [] hfmtNoSpace
    have h0 := pyReplace_pair [' ', 'K', 'B', ')'] (fmtTenths sz) [] (by simp) hfk (by decide)
    rw [List.append_nil] at h0
    rw [h0, List.append_nil]
  rw [hrepl, pyFloatTenths_fmtTenths sz]

theorem isPrefixOf_head_large (a c0 : Char) (arest l : List Char)
    (ha : 57 < a.toNat) (h : c0.toNat ≤ 57) :
    (a :: arest).isPrefixOf (c0 :: l) = false := by
  refine isPrefixOf_cons_false a c0 arest l ?_
  intro he
  rw [he] at ha
  omega

theorem parseFolderLines_cons_folder (L : List Char) (rest : List (List Char))
    (st : String × Nat × List (String × Nat))
    (hF : ("Folder:".data).isPrefixOf L = true) :
    parseFolderLines (L :: rest) st
      = parseFolderLines rest
          (String.mk (stripChars (pyReplace ("Folder:".data) [] L)), st.2.1, st.2.2) := by
  simp only [parseFolderLines]
  rw [if_pos hF]

theorem parseFolderLines_cons_total (L : List Char) (rest : List (List Char))
    (st : String × Nat × List (String × Nat)) (n : Nat)
    (hF : ("Folder:".data).isPrefixOf L = false)
    (hT : ("Total files:".data).isPrefixOf L = true)
    (hn : pyIntOpt (String.mk (stripChars (pyReplace ("Total files:".data) [] L))) = some n) :
    parseFolderLines (L :: rest) st = parseFolderLines rest (st.1, n, st.2.2) := by
  simp only [parseFolderLines]
  rw [if_neg (by rw [hF]; simp), if_pos hT, hn]

theorem parseFolderLines_cons_file (L : List Char) (rest : List (List Char))
    (st : String × Nat × List (String × Nat)) (e : String × Nat)
    (hF : ("Folder:".data).isPrefixOf L = false)
    (hT : ("Total files:".data).isPrefixOf L = false)
    (hs : ¬ stripChars L = [])
    (hdig : (L.headD ' ').isDigit = true)
    (hp : parseFileLine L = some e) :
    parseFolderLines (L :: rest) st
      = parseFolderLines rest (st.1, st.2.1, st.2.2 ++ [e]) := by
  simp only [parseFolderLines]
  rw [if_neg (by rw [hF]; simp), if_neg (by rw [hT]; simp),
    if_pos ⟨hs, hdig⟩, hp]

theorem parseFolderLines_cons_skip (L : List Char) (rest : List (List Char))
    (st : String × Nat × List (String × Nat))
    (hF : ("Folder:".data).isPrefixOf L = false)
    (hT : ("Total files:".data).isPrefixOf L = false)
    (hcond : stripChars L = [] ∨ (L.headD ' ').isDigit = false) :
    parseFolderLines (L :: rest) st = parseFolderLines rest st := by
  simp only [parseFolderLines]
  rw [if_neg (by rw [hF]; simp), if_neg (by rw [hT]; simp), if_neg]
  intro hand
  rcases hcond with hc | hc
  · exact hand.1 hc
  · rw [hc] at hand
    exact Bool.false_ne_true hand.2

theorem fileLine_data (sizeOf : String → Nat) (i : Nat) (p : String) :
    (String.mk (natStr i) ++ ". " ++ p ++ " ("
        ++ String.mk (fmtTenths (sizeOf p)) ++ " KB)").data
      = natStr i ++ '.' :: ' ' :: (p.data ++ [' ', '(']
          ++ fmtTenths (sizeOf p) ++ [' ', 'K', 'B', ')']) := by
  simp only [String.data_append]
  simp [List.append_assoc]

theorem parseFolderLines_fileLines (sizeOf : String → Nat) (ps : List String)
    (i : Nat) (st : String × Nat × List (String × Nat))
    (hps : ∀ p ∈ ps, (∃ d dt, p.data = d :: dt ∧ isPySpace d = false)
      ∧ hasSub [' ', '('] p.data = false) :
    parseFolderLines ((fileLines sizeOf i ps).map String.data) st
      = some (st.1, st.2.1, st.2.2 ++ ps.map (fun p => (p, sizeOf p))) := by
  induction ps generalizing i st with
  | nil => simp [fileLines, parseFolderLines]
  | cons p ps' ih =>
      obtain ⟨⟨d, dt, hpd, hd⟩, hnp⟩ := hps p (List.mem_cons_self p ps')
      rw [show fileLines sizeOf i (p :: ps')
        = (String.mk (natStr i) ++ ". " ++ p ++ " ("
            ++ String.mk (fmtTenths (sizeOf p)) ++ " KB)")
          :: fileLines sizeOf (i + 1) ps' from rfl]
      rw [List.map_cons, fileLine_data]
      obtain ⟨c0, ct, hnat⟩ : ∃ c0 ct, natStr i = c0 :: ct := by
        cases hn : natStr i with
        | nil => exact absurd hn (natStr_ne_nil i)
        | cons c0 ct => exact ⟨c0, ct, rfl⟩
      have hc0 := natStr_digit_range i c0 (by rw [hnat]; exact List.mem_cons_self c0 ct)
      have hLcons : natStr i ++ '.' :: ' ' :: (p.data ++ [' ', '(']
            ++ fmtTenths (sizeOf p) ++ [' ', 'K', 'B', ')'])
          = c0 :: (ct ++ '.' :: ' ' :: (p.data ++ [' ', '(']
            ++ fmtTenths (sizeOf p) ++ [' ', 'K', 'B', ')'])) := by
        rw [hnat]
        rfl
      have hF : ("Folder:".data).isPrefixOf (natStr i ++ '.' :: ' ' :: (p.data
            ++ [' ', '('] ++ fmtTenths (sizeOf p) ++ [' ', 'K', 'B', ')'])) = false := by
        rw [hLcons, show ("Folder:".data) = 'F' :: ("older:".data) from rfl]
        exact isPrefixOf_head_large 'F' c0 _ _ (by decide) hc0.2
      have hT : ("Total files:".data).isPrefixOf (natStr i ++ '.' :: ' ' :: (p.data
            ++ [' ', '('] ++ fmtTenths (sizeOf p) ++ [' ', 'K', 'B', ')'])) = false := by
        rw [hLcons, show ("Total files:".data) = 'T' :: ("otal files:".data) from rfl]
        exact isPrefixOf_head_large 'T' c0 _ _ (by decide) hc0.2
      have hs : ¬ stripChars (natStr i ++ '.' :: ' ' :: (p.data
            ++ [' ', '('] ++ fmtTenths (sizeOf p) ++ [' ', 'K', 'B', ')'])) = [] := by
        rw [hLcons]
        exact stripChars_ne_nil c0 _ (isPySpace_of_digit c0 hc0)
      have hdig : ((natStr i ++ '.' :: ' ' :: (p.data ++ [' ', '(']
            ++ fmtTenths (sizeOf p) ++ [' ', 'K', 'B', ')'])).headD ' ').isDigit = true := by
        rw [hLcons]
        exact natStr_isDigit i c0 (by rw [hnat]; exact List.mem_cons_self c0 ct)
      have hparse : parseFileLine (natStr i ++ '.' :: ' ' :: (p.data ++ [' ', '(']
            ++ fmtTenths (sizeOf p) ++ [' ', 'K', 'B', ')'])) = some (p, sizeOf p) := by
        rw [hpd] at hnp ⊢
        rw [parseFileLine_render i (sizeOf p) d dt hd hnp]
        rw [show String.mk (d :: dt) = String.mk p.data from by rw [hpd]]
      rw [parseFolderLines_cons_file _ _ st (p, sizeOf p) hF hT hs hdig hparse]
      rw [ih (i + 1) _ (fun q hq => hps q (List.mem_cons_of_mem p hq))]
      simp

theorem hasSub_prefix (sep l : List Char) (h : sep.isPrefixOf l = true) :
    hasSub sep l = true := by
  cases l with
  | nil =>
      cases sep with
      | nil => rfl
      | cons a as => exact absurd h (by simp [List.isPrefixOf])
  | cons c cs =>
      rw [hasSub, h]
      simp

theorem isPrefixOf_append_of (sep a b : List Char) (h : sep.isPrefixOf a = true) :
    sep.isPrefixOf (a ++ b) = true := by
  induction sep generalizing a with
  | nil => simp [List.isPrefixOf]
  | cons s ss ih =>
      cases a with
      | nil => exact absurd h (by simp [List.isPrefixOf])
      | cons a0 arest =>
          rw [List.cons_append]
          simp only [List.isPrefixOf, Bool.and_eq_true] at h ⊢
          exact ⟨h.1, ih arest h.2⟩

theorem fileLines_no_newline (sizeOf : String → Nat) (ps : List String) (i : Nat)
    (hps : ∀ p ∈ ps, ∀ c ∈ p.data, ¬ c = '\n') :
    ∀ L ∈ (fileLines sizeOf i ps).map String.data, ∀ c ∈ L, ¬ c = '\n' := by
  induction ps generalizing i with
  | nil =>
      intro L hL
      simp [fileLines] at hL
  | cons p ps' ih =>
      intro L hL c hc
      rw [show fileLines sizeOf i (p :: ps')
        = (String.mk (natStr i) ++ ". " ++ p ++ " ("
            ++ String.mk (fmtTenths (sizeOf p)) ++ " KB)")
          :: fileLines sizeOf (i + 1) ps' from rfl, List.map_cons] at hL
      rcases List.mem_cons.mp hL with hL1 | hL2
      · subst hL1
        rw [fileLine_data] at hc
        rcases List.mem_append.mp hc with h1 | h1
        · exact natStr_no_char i '\n' (Or.inl (by decide)) c h1
        · rcases List.mem_cons.mp h1 with h2 | h2
          · rw [h2]; decide
          · rcases List.mem_cons.mp h2 with h3 | h3
            · rw [h3]; decide
            · rcases List.mem_append.mp h3 with h4 | h4
              · rcases List.mem_append.mp h4 with h5 | h5
                · rcases List.mem_append.mp h5 with h6 | h6
                  · exact hps p (List.mem_cons_self p ps') c h6
                  · fin_cases h6 <;> decide
                · exact fmtTenths_no_char (sizeOf p) '\n' (Or.inl (by decide)) (by decide) c h5
              · fin_cases h4 <;> decide
      · exact ih (i + 1) (fun q hq => hps q (List.mem_cons_of_mem p hq)) L hL2 c hc

/-- The report-parsing half of `_analyze_tool_results_and_respond` recovers the
folder name, the file count and the parsed entries from a report of the shape
the listing tool renders. -/
theorem parseFolderData_of_data (s : String) (fn : String) (n : Nat)
    (lineDatas : List (List Char)) (entries : List (String × Nat))
    (hdata : s.data
      = (("Folder:".data) ++ ' ' :: fn.data)
        ++ '\n' :: ((("Total files:".data) ++ ' ' :: natStr n)
        ++ '\n' :: '\n' :: (("Files:".data) ++ '\n' :: joinWith ['\n'] lineDatas)))
    (hfnStrip : pyStrip fn = fn)
    (hfnF : hasSub ("Folder:".data) fn.data = false)
    (hfnNl : ∀ c ∈ fn.data, ¬ c = '\n')
    (hlNe : ¬ lineDatas = [])
    (hlNl : ∀ L ∈ lineDatas, ∀ c ∈ L, ¬ c = '\n')
    (hparse : ∀ st : String × Nat × List (String × Nat),
      parseFolderLines lineDatas st = some (st.1, st.2.1, st.2.2 ++ entries)) :
    parseFolderData s = some ⟨fn, n, entries⟩ := by
  unfold parseFolderData
  rw [hdata]
  have h1nl : ∀ c ∈ ("Folder:".data) ++ ' ' :: fn.data, ¬ c = '\n' := by
    intro c hc
    rcases List.mem_append.mp hc with h | h
    · fin_cases h <;> decide
    · rcases List.mem_cons.mp h with h2 | h2
      · rw [h2]; decide
      · exact hfnNl c h2
  have h2nl : ∀ c ∈ ("Total files:".data) ++ ' ' :: natStr n, ¬ c = '\n' := by
    intro c hc
    rcases List.mem_append.mp hc with h | h
    · fin_cases h <;> decide
    · rcases List.mem_cons.mp h with h2 | h2
      · rw [h2]; decide
      · exact natStr_no_char n '\n' (Or.inl (by decide)) c h2
  have h4nl : ∀ c ∈ ("Files:".data), ¬ c = '\n' := by
    intro c hc
    fin_cases hc <;> decide
  rw [splitOnChar_line '\n' _ _ h1nl, splitOnChar_line '\n' _ _ h2nl,
    splitOnChar_cons_sep, splitOnChar_line '\n' _ _ h4nl,
    splitOnChar_joinWith '\n' lineDatas hlNe hlNl]
  have hstep1 : parseFolderLines
      ((("Folder:".data) ++ ' ' :: fn.data)
        :: (("Total files:".data) ++ ' ' :: natStr n)
        :: [] :: ("Files:".data) :: lineDatas) ("Unknown", 0, [])
      = parseFolderLines
        ((("Total files:".data) ++ ' ' :: natStr n)
          :: [] :: ("Files:".data) :: lineDatas) (fn, 0, []) := by
    rw [parseFolderLines_cons_folder _ _ _
      (isPrefixOf_append_self ("Folder:".data) (' ' :: fn.data))]
    have hy : hasSub ("Folder:".data) (' ' :: fn.data) = false := by
      refine hasSub_cons_false _ ' ' _ ?_ hfnF
      exact isPrefixOf_cons_false 'F' ' ' _ _ (by decide)
    have hrep : pyReplace ("Folder:".data) [] (("Folder:".data) ++ ' ' :: fn.data)
        = ' ' :: fn.data := by
      have h0 := pyReplace_pair ("Folder:".data) [] (' ' :: fn.data)
        (by decide) (by
          simp only [List.nil_append, List.length_nil]
          exact findSub_self_append _ _ (by decide)) hy
      simpa using h0
    rw [hrep, stripChars_cons_space ' ' _ (by decide)]
    rw [show String.mk (stripChars fn.data) = pyStrip fn from rfl, hfnStrip]
  rw [hstep1]
  have hstep2 : parseFolderLines
      ((("Total files:".data) ++ ' ' :: natStr n)
        :: [] :: ("Files:".data) :: lineDatas) (fn, 0, [])
      = parseFolderLines ([] :: ("Files:".data) :: lineDatas) (fn, n, []) := by
    have hF2 : ("Folder:".data).isPrefixOf (("Total files:".data) ++ ' ' :: natStr n) = false :=
      isPrefixOf_cons_false 'F' 'T' _ _ (by decide)
    have hT2 : ("Total files:".data).isPrefixOf (("Total files:".data) ++ ' ' :: natStr n) = true :=
      isPrefixOf_append_self _ _
    have hy : hasSub ("Total files:".data) (' ' :: natStr n) = false := by
      refine hasSub_cons_false _ ' ' _
        (isPrefixOf_cons_false 'T' ' ' _ _ (by decide)) ?_
      exact hasSub_no_head 'T' _ (natStr n)
        (natStr_no_char n 'T' (Or.inr (by decide)))
    have hrep : pyReplace ("Total files:".data) [] (("Total files:".data) ++ ' ' :: natStr n)
        = ' ' :: natStr n := by
      have h0 := pyReplace_pair ("Total files:".data) [] (' ' :: natStr n)
        (by decide) (by
          simp only [List.nil_append, List.length_nil]
          exact findSub_self_append _ _ (by decide)) hy
      simpa using h0
    refine parseFolderLines_cons_total _ _ _ n hF2 hT2 ?_
    rw [hrep, stripChars_cons_space ' ' _ (by decide),
      stripChars_all_eq_self (natStr n) (natStr_not_space n)]
    exact pyIntOpt_natStr n
  rw [hstep2]
  rw [parseFolderLines_cons_skip [] _ _ (by rfl) (by rfl) (Or.inl rfl)]
  rw [parseFolderLines_cons_skip ("Files:".data) _ _ (by decide) (by decide)
    (Or.inr (by decide))]
  rw [hparse (fn, n, [])]
  simp

/-- The character data of a rendered folder report, in the shape the parsing
lemmas consume. -/
theorem toolListFolderContents_data (folderName : String) (paths : List String)
    (sizeOf : String → Nat) (hne : ¬ paths = []) :
    (toolListFolderContents folderName paths sizeOf).data
      = (("Folder:".data) ++ ' ' :: folderName.data)
        ++ '\n' :: ((("Total files:".data)
            ++ ' ' :: natStr ((paths.dedup).mergeSort (fun a b => a ≤ b)).length)
        ++ '\n' :: '\n' :: (("Files:".data)
            ++ '\n' :: joinWith ['\n']
              ((fileLines sizeOf 1 ((paths.dedup).mergeSort (fun a b => a ≤ b))).map
                String.data))) := by
  rw [show toolListFolderContents folderName paths sizeOf
      = "Folder: " ++ folderName ++ "\nTotal files: "
        ++ String.mk (natStr ((paths.dedup).mergeSort (fun a b => a ≤ b)).length)
        ++ "\n\nFiles:\n"
        ++ String.mk (joinWith ['\n']
            ((fileLines sizeOf 1 ((paths.dedup).mergeSort (fun a b => a ≤ b))).map
              String.data)) from by
    simp only [toolListFolderContents]
    rw [if_neg hne]]
  simp only [String.data_append]
  simp [List.append_assoc]

/-- C1 (counterexample): the batch JPEG persistence call does not first copy
the original to a temp file - its whole trace is one in-place write of the
original path, and a crash in the middle of that write leaves the original
holding neither its old bytes nor the new ones. -/
theorem claim_c1_counterexample :
    (jpegDirectTrace ("img.jpg") (.bytes [9, 9])).all
        (fun op => op.isCopy = false) = true
      ∧ fsGet (runCrash [(("img.jpg"), FileData.bytes [1, 2])]
            (jpegDirectTrace ("img.jpg") (.bytes [9, 9])) 0) ("img.jpg")
          = some .corrupted
      ∧ ¬ (FileData.corrupted = .bytes [1, 2])
      ∧ ¬ (FileData.corrupted = .bytes [9, 9]) := by
  refine ⟨by decide, by decide, by decide, by decide⟩

/-- C1 (amended): the copy-temp-replace discipline lives in the simple save
path (`save_simple_metadata`) alone, whose trace starts by copying the
original to the temp file; the batch direct JPEG path
(`_save_jpeg_metadata_direct`) instead rewrites the original path in place,
with no copy operation in its trace.  The simple path's final `shutil.move`
is crash-safe only when the OS grants an `os.rename` - then every
interruption point leaves the original holding its old bytes or, after the
rename, the new ones.  When `shutil.move` falls back to copy-and-delete
(always on Windows onto an existing destination, cross-filesystem elsewhere)
the original is untouched before the replace and carries the new bytes after
the fallback copy, but a crash in the middle of that copy leaves the
original corrupted. -/
theorem claim_c1 (orig temp : String) (old new : FileData) (s : FsState)
    (hneq : ¬ temp = orig) (hold : fsGet s orig = some old) (k : Nat) :
    (fsGet (runCrash s (simpleSaveTrace true orig temp new) k) orig = some old
        ∨ fsGet (runCrash s (simpleSaveTrace true orig temp new) k) orig = some new)
      ∧ (k < 2 →
          fsGet (runCrash s (simpleSaveTrace false orig temp new) k) orig = some old)
      ∧ fsGet (runCrash s (simpleSaveTrace false orig temp new) 2) orig
          = some FileData.corrupted
      ∧ (3 ≤ k →
          fsGet (runCrash s (simpleSaveTrace false orig temp new) k) orig = some new)
      ∧ (simpleSaveTrace true orig temp new).head? = some (.copyFile orig temp)
      ∧ (simpleSaveTrace false orig temp new).head? = some (.copyFile orig temp)
      ∧ jpegDirectTrace orig new = [.writeFile orig new]
      ∧ (jpegDirectTrace orig new).all (fun op => op.isCopy = false) = true :=
  ⟨simpleSaveTrace_crashSafe orig temp old new s hneq hold k,
    fun hk => simpleSaveTrace_fallback_pre orig temp old new s hneq hold k hk,
    simpleSaveTrace_fallback_corrupt orig temp old new s hneq hold,
    fun hk => simpleSaveTrace_fallback_post orig temp old new s hneq hold k hk,
    rfl, rfl, rfl, by simp [jpegDirectTrace, FsOp.isCopy]⟩

theorem claim_c1_witness :
    (fsGet (runCrash [(("img.jpg"), FileData.bytes [1])]
          (simpleSaveTrace true ("img.jpg") ("tmp.jpg") (.bytes [2])) 1) ("img.jpg")
        = some (.bytes [1])
      ∨ fsGet (runCrash [(("img.jpg"), FileData.bytes [1])]
          (simpleSaveTrace true ("img.jpg") ("tmp.jpg") (.bytes [2])) 1) ("img.jpg")
        = some (.bytes [2]))
      ∧ (1 < 2 →
          fsGet (runCrash [(("img.jpg"), FileData.bytes [1])]
            (simpleSaveTrace false ("img.jpg") ("tmp.jpg") (.bytes [2])) 1) ("img.jpg")
          = some (.bytes [1]))
      ∧ fsGet (runCrash [(("img.jpg"), FileData.bytes [1])]
            (simpleSaveTrace false ("img.jpg") ("tmp.jpg") (.bytes [2])) 2) ("img.jpg")
          = some FileData.corrupted
      ∧ (3 ≤ 1 →
          fsGet (runCrash [(("img.jpg"), FileData.bytes [1])]
            (simpleSaveTrace false ("img.jpg") ("tmp.jpg") (.bytes [2])) 1) ("img.jpg")
          = some (.bytes [2]))
      ∧ (simpleSaveTrace true ("img.jpg") ("tmp.jpg") (.bytes [2])).head?
          = some (.copyFile ("img.jpg") ("tmp.jpg"))
      ∧ (simpleSaveTrace false ("img.jpg") ("tmp.jpg") (.bytes [2])).head?
          = some (.copyFile ("img.jpg") ("tmp.jpg"))
      ∧ jpegDirectTrace ("img.jpg") (.bytes [2])
          = [.writeFile ("img.jpg") (.bytes [2])]
      ∧ (jpegDirectTrace ("img.jpg") (.bytes [2])).all
          (fun op => op.isCopy = false) = true :=
  claim_c1 ("img.jpg") ("tmp.jpg") (.bytes [1]) (.bytes [2])
    [(("img.jpg"), FileData.bytes [1])] (by decide) (by decide) 1

/-- C2 (counterexample): `_save_jpeg_metadata_direct` stores XPTitle "A" as
the raw UTF-16LE bytes [65, 0], which do not begin with the mandatory 2-byte
byte-order mark ff fe. -/
theorem claim_c2_counterexample :
    getTag (saveJpegMetadataDirectStore { xpTitle := some "A" } ([] : ExifStore))
        40091 = some [65, 0]
      ∧ ¬ ([65, 0].take 2 = bomBytes) := by
  refine ⟨by decide, by decide⟩

/-- C2 (amended): both JPEG persistence paths write each present field at its
fixed tag id (Title 40091, Description 270, Keywords 40094, Artist 315,
Make 271, Model 272) with UTF-8 for the latter four; the simple path writes
Title/Keywords as UTF-16LE always prefixed by the 2-byte BOM, while the batch
direct path writes them as raw UTF-16LE that, for ASCII values, never carries
a BOM. -/
theorem claim_c2 (r : MetadataRecord) (v : String) (hv : asciiStr v) :
    (getTag (saveSimpleJpegMetadata r ([] : ExifStore)) 40091
        = r.xpTitle.map encodeUtf16WithBom
      ∧ getTag (saveSimpleJpegMetadata r ([] : ExifStore)) 270
        = r.imageDescription.map utf8Encode
      ∧ getTag (saveSimpleJpegMetadata r ([] : ExifStore)) 40094
        = r.xpKeywords.map encodeUtf16WithBom
      ∧ getTag (saveSimpleJpegMetadata r ([] : ExifStore)) 315
        = r.artist.map utf8Encode
      ∧ getTag (saveSimpleJpegMetadata r ([] : ExifStore)) 271
        = r.make.map utf8Encode
      ∧ getTag (saveSimpleJpegMetadata r ([] : ExifStore)) 272
        = r.model.map utf8Encode)
      ∧ (getTag (saveJpegMetadataDirectStore r ([] : ExifStore)) 40091
          = r.xpTitle.map utf16leEncode
        ∧ getTag (saveJpegMetadataDirectStore r ([] : ExifStore)) 40094
          = r.xpKeywords.map utf16leEncode
        ∧ getTag (saveJpegMetadataDirectStore r ([] : ExifStore)) 270
          = r.imageDescription.map utf8Encode
        ∧ getTag (saveJpegMetadataDirectStore r ([] : ExifStore)) 315
          = r.artist.map utf8Encode
        ∧ getTag (saveJpegMetadataDirectStore r ([] : ExifStore)) 271
          = r.make.map utf8Encode
        ∧ getTag (saveJpegMetadataDirectStore r ([] : ExifStore)) 272
          = r.model.map utf8Encode)
      ∧ (encodeUtf16WithBom v).take 2 = bomBytes
      ∧ ¬ (utf16leEncode v).take 2 = bomBytes := by
  obtain ⟨s1, s2, s3, s4, s5, s6⟩ := getTag_saveSimple r
  obtain ⟨d1, d2, d3, d4, d5, d6⟩ := getTag_saveDirect r
  exact ⟨⟨s1, s2, s3, s4, s5, s6⟩, ⟨d1, d3, d2, d4, d5, d6⟩,
    encodeUtf16WithBom_starts_bom v, utf16leEncode_ascii_no_bom v hv⟩

theorem claim_c2_witness :
    asciiStr ("Oak") ∧ (encodeUtf16WithBom ("Oak")).take 2 = bomBytes
      ∧ ¬ (utf16leEncode ("Oak")).take 2 = bomBytes :=
  ⟨by decide, (claim_c2 { xpTitle := some "Oak" } ("Oak") (by decide)).2.2.1,
    (claim_c2 { xpTitle := some "Oak" } ("Oak") (by decide)).2.2.2⟩

/-- C3 (counterexample): for the WebP backend the round trip is not the
identity - persisting Title "A" hands the external tool the quote-wrapped
value, so reading the tag back returns a 3-character string, not "A". -/
theorem claim_c3_counterexample :
    toolGet (webpWrite { xpTitle := some "A" }) ("XMP:Title")
        = some ("\"A\"")
      ∧ ¬ (("\"A\"" : String) = "A") := by
  refine ⟨by decide, by decide⟩

/-- C3 (amended): the JPEG backend round-trips every ASCII record exactly
(persist into an empty EXIF block, read back all six fields, BOM stripped on
Title/Keywords); the WebP backend stores each value wrapped in literal double
quotes, so its read-back differs from the original value. -/
theorem claim_c3 (r : MetadataRecord) (h : r.ascii) (v : String) :
    loadSimpleRecord (saveSimpleJpegMetadata r ([] : ExifStore)) = r
      ∧ toolGet (webpWrite { xpTitle := some v }) ("XMP:Title")
          = some (quoteArg v)
      ∧ ¬ quoteArg v = v := by
  refine ⟨loadSimple_saveSimple r h, ?_, quoteArg_ne v⟩
  show toolGet (runToolArgs [(("XMP:Title"), quoteArg v)] ([] : ToolStore))
      ("XMP:Title") = some (quoteArg v)
  rw [runToolArgs, List.foldl_cons, List.foldl_nil]
  exact toolGet_toolPut ([] : ToolStore) ("XMP:Title") (quoteArg v)

theorem claim_c3_witness :
    loadSimpleRecord (saveSimpleJpegMetadata
        { xpTitle := some "Oak Top", imageDescription := some "A kitchen",
          xpKeywords := some "oak, top", artist := some "Acme",
          make := some "F032", model := some "ST78" } ([] : ExifStore))
      = { xpTitle := some "Oak Top", imageDescription := some "A kitchen",
          xpKeywords := some "oak, top", artist := some "Acme",
          make := some "F032", model := some "ST78" }
      ∧ toolGet (webpWrite { xpTitle := some "A" }) ("XMP:Title")
          = some (quoteArg ("A"))
      ∧ ¬ quoteArg ("A") = "A" :=
  claim_c3 _ (by decide) ("A")

/-- C4 (confirmed): every per-image outcome bumps exactly one of the two
counters (failures and caught exceptions bump `failed`), the loop handles each
image once in order with no retry and no abort, and after the loop
successful + failed equals the total while the summary is the plain triple of
the counters. -/
theorem claim_c4 (outcomes : List ImageOutcome) :
    (runBatchLoop outcomes).successful + (runBatchLoop outcomes).failed
        = outcomes.length
      ∧ (runBatchLoop outcomes).successful
        = (outcomes.filter (fun o => o = .success)).length
      ∧ (runBatchLoop outcomes).failed
        = (outcomes.filter (fun o => ¬ (o = .success))).length
      ∧ (∀ o : ImageOutcome,
          runBatchLoop (outcomes ++ [o]) = stepBatch (runBatchLoop outcomes) o)
      ∧ batchSummary outcomes
        = ((runBatchLoop outcomes).successful, (runBatchLoop outcomes).failed,
            outcomes.length) := by
  obtain ⟨hs, hf⟩ := runBatchLoop_counts outcomes
  refine ⟨?_, hs, hf, fun o => runBatchLoop_append outcomes o, rfl⟩
  rw [hs, hf]
  exact filterSuccess_split outcomes

/-- C6 (counterexample): with a run active (`ai_processing` true) and every
guard the code does check satisfied, `start_batch_ai_processing` still
launches a second worker thread instead of rejecting. -/
theorem claim_c6_counterexample :
    ({ batchFolder := some "C:/imgs", aiEnabled := true,
        chatMessages := ["rule"], aiProcessing := true,
        userConfirms := true } : StartState).aiProcessing = true
      ∧ startBatchAiProcessing
          { batchFolder := some "C:/imgs", aiEnabled := true,
            chatMessages := ["rule"], aiProcessing := true,
            userConfirms := true }
        = .launchThread := by
  refine ⟨rfl, by decide⟩

/-- C6 (amended): the start entry point launches exactly when a folder is
selected, AI is enabled, chat rules exist and the user confirms; it never
consults the processing flag, so an active run does not cause a rejection. -/
theorem claim_c6 (s : StartState) :
    (startBatchAiProcessing s = .launchThread
        ↔ (¬ s.batchFolder = none ∧ s.aiEnabled = true
            ∧ ¬ s.chatMessages = [] ∧ s.userConfirms = true))
      ∧ ∀ b : Bool,
          startBatchAiProcessing
              { s with aiProcessing := b } = startBatchAiProcessing s := by
  constructor
  · unfold startBatchAiProcessing
    split_ifs with h1 h2 h3 h4 <;> simp_all
  · intro b
    rfl

/-- C8 (confirmed): splitting the extension-stripped filename on underscores
maps tokens 0 through 4 to code/type/color/name/category when at least 6
tokens exist (the example filename yields F032/ST78/Grey/Cascia/Granite), and
yields five empty strings with fewer than 6 tokens. -/
theorem claim_c8 (filename : String) :
    parseFilenameData ("F032_ST78_Grey_Cascia_Granite_room_images_000.jpg")
        = { filename := "F032_ST78_Grey_Cascia_Granite_room_images_000.jpg",
            code := "F032", type := "ST78", color := "Grey", name := "Cascia",
            category := "Granite", number := "room" }
      ∧ (6 ≤ (splitUnderscore (pathStem filename)).length →
          parseFilenameData filename
            = { filename := filename
                code := (splitUnderscore (pathStem filename)).getD 0 ""
                type := (splitUnderscore (pathStem filename)).getD 1 ""
                color := (splitUnderscore (pathStem filename)).getD 2 ""
                name := (splitUnderscore (pathStem filename)).getD 3 ""
                category := (splitUnderscore (pathStem filename)).getD 4 ""
                number := (splitUnderscore (pathStem filename)).getD 5 "" })
      ∧ ((splitUnderscore (pathStem filename)).length < 6 →
          parseFilenameData filename
            = { filename := filename, code := "", type := "", color := "",
                name := "", category := "", number := "" }) := by
  refine ⟨by decide, ?_, ?_⟩
  · intro h6
    unfold parseFilenameData
    rw [if_pos h6]
  · intro hlt
    unfold parseFilenameData
    rw [if_neg (by omega)]

theorem claim_c8_witness :
    parseFilenameData ("F032_ST78_Grey_Cascia_Granite_room_images_000.jpg")
        = { filename := "F032_ST78_Grey_Cascia_Granite_room_images_000.jpg",
            code := "F032", type := "ST78", color := "Grey", name := "Cascia",
            category := "Granite", number := "room" }
      ∧ parseFilenameData ("IMG_1234.jpg")
        = { filename := "IMG_1234.jpg", code := "", type := "", color := "",
            name := "", category := "", number := "" } :=
  ⟨(claim_c8 ("IMG_1234.jpg")).1, (claim_c8 ("IMG_1234.jpg")).2.2 (by decide)⟩

/-- C9 (confirmed): the batch WebP persistence function reads the
`exiftool_path` attribute, which no code in the class ever assigns; the
resulting `AttributeError` is caught and reported as a save failure, so the
call returns `False` for every image path and non-empty record, whatever exit
code the tool would have produced. -/
theorem claim_c9 (env : ToolEnv) (imagePath : String) (r : MetadataRecord)
    (h : ¬ r.isEmptyRec = true) :
    saveWebpMetadataDirect env imagePath r = false := by
  unfold saveWebpMetadataDirect exiftoolPathAttr
  rfl

/-- C5 (counterexample): on the example response the parser returns more than
the record with Title and Make: the fallback extractors also fill Description
(the 25-character first line) and Keywords (the whitelist hits "kitchen" and
"modern"); and a response with no colon-delimited lines need not parse to an
empty record - a long line or a whitelist hit still fills a field. -/
theorem claim_c5_counterexample :
    parseAiResponse none ("Title: Modern Oak Kitchen\nMake: F032")
        = { title := some "Modern Oak Kitchen",
            description := some "Title: Modern Oak Kitchen",
            keywords := some "kitchen, modern",
            artist := none, make := some "F032", model := none }
      ∧ ¬ (parseAiResponse none ("Title: Modern Oak Kitchen\nMake: F032")
            = { title := some "Modern Oak Kitchen", make := some "F032" })
      ∧ hasSub (":".data) ("a bright modern kitchen with oak cabinets").data
          = false
      ∧ ¬ (parseAiResponse none ("a bright modern kitchen with oak cabinets")
            = ({} : ParsedMeta)) := by
  refine ⟨by decide, by decide, by decide, by decide⟩

/-- C5 (amended): the parser extracts Title "Modern Oak Kitchen" and Make
"F032" from the example response, together with the fallback-derived
Description and Keywords entries; and a response containing no ':', '=' or
'<' characters, no stripped line longer than 20 characters and no occurrence
of a whitelist term or of "egger", parsed without filename context, yields
the empty record. -/
theorem claim_c5 (text : String)
    (hnc : ∀ c ∈ text.data, ¬ (c = ':') ∧ ¬ (c = '=') ∧ ¬ (c = '<'))
    (hshort : ∀ l ∈ (splitOnChar '\n' text.data).map stripChars, l.length ≤ 20)
    (hind : ∀ k ∈ keywordIndicators,
        hasSub k.data (text.data.map Char.toLower) = false)
    (hegger : hasSub ("egger".data) (text.data.map Char.toLower) = false) :
    parseAiResponse none ("Title: Modern Oak Kitchen\nMake: F032")
        = { title := some "Modern Oak Kitchen",
            description := some "Title: Modern Oak Kitchen",
            keywords := some "kitchen, modern",
            artist := none, make := some "F032", model := none }
      ∧ parseAiResponse none text = ({} : ParsedMeta) := by
  constructor
  · decide
  · simp only [parseAiResponse]
    rw [fieldPrimary_none _ _ _ (fun c h => ⟨(hnc c h).1, (hnc c h).2.1⟩)]
    rw [fieldPrimary_none _ _ _ (fun c h => ⟨(hnc c h).1, (hnc c h).2.1⟩)]
    rw [if_pos ⟨rfl, rfl⟩]
    rw [titleOf_none _ _ hnc]
    rw [descriptionOf_none _ hshort]
    rw [keywordsOf_none _ hind]
    rw [artistOf_plain _ _ (fun c h => ⟨(hnc c h).1, (hnc c h).2.1⟩) hegger]

theorem claim_c5_witness :
    (∀ c ∈ ("ok fine").data, ¬ (c = ':') ∧ ¬ (c = '=') ∧ ¬ (c = '<'))
      ∧ parseAiResponse none ("ok fine") = ({} : ParsedMeta) :=
  ⟨by decide,
    (claim_c5 ("ok fine") (by decide) (by decide) (by decide) (by decide)).2⟩

theorem claim_c9_witness :
    ¬ ({ xpTitle := some "T" } : MetadataRecord).isEmptyRec = true
      ∧ saveWebpMetadataDirect ⟨0⟩ ("img.webp") { xpTitle := some "T" }
        = false :=
  ⟨by decide, claim_c9 ⟨0⟩ ("img.webp") { xpTitle := some "T" } (by decide)⟩

theorem foldlMax_spec (t : List (String × Nat)) (h : String × Nat) :
    (t.foldl (fun best x => if best.2 < x.2 then x else best) h) ∈ h :: t
    ∧ h.2 ≤ (t.foldl (fun best x => if best.2 < x.2 then x else best) h).2
    ∧ ∀ g ∈ t, g.2 ≤ (t.foldl (fun best x => if best.2 < x.2 then x else best) h).2 := by
  induction t generalizing h with
  | nil =>
      refine ⟨List.mem_cons_self h [], Nat.le_refl _, ?_⟩
      intro g hg
      simp at hg
  | cons x t' ih =>
      obtain ⟨hmem, hle, hall⟩ := ih (if h.2 < x.2 then x else h)
      have hx2 : x.2 ≤ (if h.2 < x.2 then x else h).2 := by
        split_ifs with hc <;> omega
      have hh2 : h.2 ≤ (if h.2 < x.2 then x else h).2 := by
        split_ifs with hc <;> omega
      refine ⟨?_, Nat.le_trans hh2 hle, ?_⟩
      · rcases List.mem_cons.mp hmem with hm | hm
        · rw [List.foldl_cons, hm]
          split_ifs <;> simp
        · rw [List.foldl_cons]
          exact List.mem_cons_of_mem h (List.mem_cons_of_mem x hm)
      · intro g hg
        rw [List.foldl_cons]
        rcases List.mem_cons.mp hg with hg1 | hg1
        · rw [hg1]
          exact Nat.le_trans hx2 hle
        · exact hall g hg1

theorem foldlMin_spec (t : List (String × Nat)) (h : String × Nat) :
    (t.foldl (fun best x => if x.2 < best.2 then x else best) h) ∈ h :: t
    ∧ (t.foldl (fun best x => if x.2 < best.2 then x else best) h).2 ≤ h.2
    ∧ ∀ g ∈ t, (t.foldl (fun best x => if x.2 < best.2 then x else best) h).2 ≤ g.2 := by
  induction t generalizing h with
  | nil =>
      refine ⟨List.mem_cons_self h [], Nat.le_refl _, ?_⟩
      intro g hg
      simp at hg
  | cons x t' ih =>
      obtain ⟨hmem, hle, hall⟩ := ih (if x.2 < h.2 then x else h)
      have hx2 : (if x.2 < h.2 then x else h).2 ≤ x.2 := by
        split_ifs with hc <;> omega
      have hh2 : (if x.2 < h.2 then x else h).2 ≤ h.2 := by
        split_ifs with hc <;> omega
      refine ⟨?_, Nat.le_trans hle hh2, ?_⟩
      · rcases List.mem_cons.mp hmem with hm | hm
        · rw [List.foldl_cons, hm]
          split_ifs <;> simp
        · rw [List.foldl_cons]
          exact List.mem_cons_of_mem h (List.mem_cons_of_mem x hm)
      · intro g hg
        rw [List.foldl_cons]
        rcases List.mem_cons.mp hg with hg1 | hg1
        · rw [hg1]
          exact Nat.le_trans hle hx2
        · exact hall g hg1

theorem dupResponse_nodup (fn : String) (n : Nat) (files : List (String × Nat))
    (h : (files.map (fun f => f.1)).Nodup) :
    dupResponse ⟨fn, n, files⟩
      = "No, there are no duplicate files in the '" ++ fn
        ++ "' folder. All " ++ String.mk (natStr n) ++ " files have unique names." := by
  simp only [dupResponse]
  rw [if_pos (by rw [List.dedup_eq_self.mpr h])]

/-- C7: after the model's requested tool calls are executed, the final answer
is synthesized locally - the action trace holds one executed call per request
followed by the local synthesis, never a second model request - by the
deterministic keyword router over the lowered user question, in the source's
`if/elif` order: "duplicate" gets the duplicate analysis, then
"largest"/"biggest" the maximum-size file, then "smallest" the minimum-size
file, then "list"/"files" the listing, then "count"/"how many" the count, and
any other question the default passthrough of the tool's structured result;
the extremal branches report a genuine maximum/minimum-size entry. -/
theorem claim_c7 (q fd : String) (info : FolderInfo) (names : List String) :
    (¬ AgentAction.modelRequest ∈ processToolCallsTrace names)
    ∧ (hasSub ("duplicate".data) (pyLower q) = true →
        routeAnswer q info fd = dupResponse info)
    ∧ (hasSub ("duplicate".data) (pyLower q) = false →
        (hasSub ("largest".data) (pyLower q) = true
          ∨ hasSub ("biggest".data) (pyLower q) = true) →
        routeAnswer q info fd = largestResponse info)
    ∧ (hasSub ("duplicate".data) (pyLower q) = false →
        hasSub ("largest".data) (pyLower q) = false →
        hasSub ("biggest".data) (pyLower q) = false →
        hasSub ("smallest".data) (pyLower q) = true →
        routeAnswer q info fd = smallestResponse info)
    ∧ (hasSub ("duplicate".data) (pyLower q) = false →
        hasSub ("largest".data) (pyLower q) = false →
        hasSub ("biggest".data) (pyLower q) = false →
        hasSub ("smallest".data) (pyLower q) = false →
        (hasSub ("list".data) (pyLower q) = true
          ∨ hasSub ("files".data) (pyLower q) = true) →
        routeAnswer q info fd = listResponse info)
    ∧ (hasSub ("duplicate".data) (pyLower q) = false →
        hasSub ("largest".data) (pyLower q) = false →
        hasSub ("biggest".data) (pyLower q) = false →
        hasSub ("smallest".data) (pyLower q) = false →
        hasSub ("list".data) (pyLower q) = false →
        hasSub ("files".data) (pyLower q) = false →
        (hasSub ("count".data) (pyLower q) = true
          ∨ hasSub ("how many".data) (pyLower q) = true) →
        routeAnswer q info fd = countResponse info)
    ∧ (hasSub ("duplicate".data) (pyLower q) = false →
        hasSub ("largest".data) (pyLower q) = false →
        hasSub ("biggest".data) (pyLower q) = false →
        hasSub ("smallest".data) (pyLower q) = false →
        hasSub ("list".data) (pyLower q) = false →
        hasSub ("files".data) (pyLower q) = false →
        hasSub ("count".data) (pyLower q) = false →
        hasSub ("how many".data) (pyLower q) = false →
        routeAnswer q info fd = defaultResponse info fd)
    ∧ (∀ f, pyMaxBySize info.files = some f →
        f ∈ info.files ∧ ∀ g ∈ info.files, g.2 ≤ f.2)
    ∧ (∀ f, pyMinBySize info.files = some f →
        f ∈ info.files ∧ ∀ g ∈ info.files, f.2 ≤ g.2) := by
  refine ⟨?_, ?_, ?_, ?_, ?_, ?_, ?_, ?_, ?_⟩
  · simp [processToolCallsTrace]
  · intro h1
    simp only [routeAnswer]
    rw [if_pos h1]
  · intro h1 h2
    simp only [routeAnswer]
    rw [if_neg (by simp [h1]), if_pos h2]
  · intro h1 h2 h3 h4
    simp only [routeAnswer]
    rw [if_neg (by simp [h1]), if_neg (by simp [h2, h3]), if_pos h4]
  · intro h1 h2 h3 h4 h5
    simp only [routeAnswer]
    rw [if_neg (by simp [h1]), if_neg (by simp [h2, h3]),
      if_neg (by simp [h4]), if_pos h5]
  · intro h1 h2 h3 h4 h5 h6 h7
    simp only [routeAnswer]
    rw [if_neg (by simp [h1]), if_neg (by simp [h2, h3]),
      if_neg (by simp [h4]), if_neg (by simp [h5, h6]), if_pos h7]
  · intro h1 h2 h3 h4 h5 h6 h7 h8
    simp only [routeAnswer]
    rw [if_neg (by simp [h1]), if_neg (by simp [h2, h3]),
      if_neg (by simp [h4]), if_neg (by simp [h5, h6]),
      if_neg (by simp [h7, h8])]
  · intro f hf
    cases hfs : info.files with
    | nil => rw [hfs] at hf; simp [pyMaxBySize] at hf
    | cons h0 t0 =>
        rw [hfs] at hf
        simp only [pyMaxBySize, Option.some.injEq] at hf
        obtain ⟨hmem, hh, hall⟩ := foldlMax_spec t0 h0
        subst hf
        refine ⟨hmem, ?_⟩
        intro g hg
        rcases List.mem_cons.mp hg with hg1 | hg1
        · rw [hg1]
          exact hh
        · exact hall g hg1
  · intro f hf
    cases hfs : info.files with
    | nil => rw [hfs] at hf; simp [pyMinBySize] at hf
    | cons h0 t0 =>
        rw [hfs] at hf
        simp only [pyMinBySize, Option.some.injEq] at hf
        obtain ⟨hmem, hh, hall⟩ := foldlMin_spec t0 h0
        subst hf
        refine ⟨hmem, ?_⟩
        intro g hg
        rcases List.mem_cons.mp hg with hg1 | hg1
        · rw [hg1]
          exact hh
        · exact hall g hg1

theorem claim_c7_witness :
    hasSub ("duplicate".data) (pyLower ("Any duplicate files?")) = true
    ∧ routeAnswer ("Any duplicate files?")
        ⟨"room", 2, [("a.jpg", 123), ("b.webp", 45)]⟩ ""
      = dupResponse ⟨"room", 2, [("a.jpg", 123), ("b.webp", 45)]⟩ :=
  ⟨by decide,
    (claim_c7 ("Any duplicate files?") ""
      ⟨"room", 2, [("a.jpg", 123), ("b.webp", 45)]⟩ []).2.1 (by decide)⟩

/-- C10 (counterexample): the duplicate branch does not answer "no
duplicates" at every loaded folder state.  A folder holding the two distinct
files `a (5 (x.jpg` and `a (7 (y.jpg` survives the tool's `set()` dedup, yet
the router's per-line split at `" ("` truncates both names to `a` and parses
the segment after the first separator as the size, so the parsed name list
`[a, a]` differs from its dedup and the branch reports one duplicate. -/
theorem claim_c10_counterexample :
    ¬ ((["a (5 (x.jpg", "a (7 (y.jpg"] : List String).dedup
        = ["a (5 (x.jpg"] )
      ∧ analyzeToolResults ("any duplicates?")
          [toolListFolderContents ("room") ["a (5 (x.jpg", "a (7 (y.jpg"]
            (fun _ => 1)]
        = "Yes, there are 1 duplicate files in the 'room' folder. The folder contains 1 unique files out of 2 total files." := by
  have hn0 : natStr 0 = ['0'] := by rw [natStr]; decide
  have hn1 : natStr 1 = ['1'] := by rw [natStr]; decide
  have hn2 : natStr 2 = ['2'] := by rw [natStr]; decide
  have hfmt : fmtTenths 1 = ['0', '.', '1'] := by rw [fmtTenths, hn0, hn1]; decide
  have hms : ((["a (5 (x.jpg", "a (7 (y.jpg"] : List String).dedup).mergeSort
      (fun a b => a ≤ b) = ["a (5 (x.jpg", "a (7 (y.jpg"] := by
    rw [show ((["a (5 (x.jpg", "a (7 (y.jpg"] : List String).dedup)
        = ["a (5 (x.jpg", "a (7 (y.jpg"] from by decide]
    refine List.mergeSort_of_sorted ?_
    refine List.Pairwise.cons ?_ (List.pairwise_singleton _ _)
    intro b hb
    rw [List.mem_singleton] at hb
    subst hb
    exact decide_eq_true (String.le_iff_toList_le.mpr (by decide))
  have hL1 : (String.mk (natStr 1) ++ ". " ++ "a (5 (x.jpg" ++ " ("
      ++ String.mk (fmtTenths 1) ++ " KB)").data
      = ("1. a (5 (x.jpg (0.1 KB)").data := by
    rw [hn1, hfmt]
    decide
  have hL2 : (String.mk (natStr 2) ++ ". " ++ "a (7 (y.jpg" ++ " ("
      ++ String.mk (fmtTenths 1) ++ " KB)").data
      = ("2. a (7 (y.jpg (0.1 KB)").data := by
    rw [hn2, hfmt]
    decide
  have hlines : (fileLines (fun _ => (1 : Nat)) 1
        ["a (5 (x.jpg", "a (7 (y.jpg"]).map String.data
      = [("1. a (5 (x.jpg (0.1 KB)").data, ("2. a (7 (y.jpg (0.1 KB)").data] := by
    rw [show fileLines (fun _ => (1 : Nat)) 1 ["a (5 (x.jpg", "a (7 (y.jpg"]
        = [String.mk (natStr 1) ++ ". " ++ "a (5 (x.jpg" ++ " ("
            ++ String.mk (fmtTenths 1) ++ " KB)",
          String.mk (natStr 2) ++ ". " ++ "a (7 (y.jpg" ++ " ("
            ++ String.mk (fmtTenths 1) ++ " KB)"] from rfl]
    rw [List.map_cons, List.map_cons, List.map_nil, hL1, hL2]
  have hsp1 : splitOnSub ((" (").data) (("a (5 (x.jpg (0.1 KB)").data)
      = [("a").data, ("5").data, ("x.jpg").data, ("0.1 KB)").data] := by
    rw [splitOnSub_step _ _ 1 (("a").data) (("5 (x.jpg (0.1 KB)").data)
        (by decide) (by decide) (by decide) (by decide),
      splitOnSub_step _ _ 1 (("5").data) (("x.jpg (0.1 KB)").data)
        (by decide) (by decide) (by decide) (by decide),
      splitOnSub_step _ _ 5 (("x.jpg").data) (("0.1 KB)").data)
        (by decide) (by decide) (by decide) (by decide),
      splitOnSub_of_none _ _ (by decide)]
  have hsp2 : splitOnSub ((" (").data) (("a (7 (y.jpg (0.1 KB)").data)
      = [("a").data, ("7").data, ("y.jpg").data, ("0.1 KB)").data] := by
    rw [splitOnSub_step _ _ 1 (("a").data) (("7 (y.jpg (0.1 KB)").data)
        (by decide) (by decide) (by decide) (by decide),
      splitOnSub_step _ _ 1 (("7").data) (("y.jpg (0.1 KB)").data)
        (by decide) (by decide) (by decide) (by decide),
      splitOnSub_step _ _ 5 (("y.jpg").data) (("0.1 KB)").data)
        (by decide) (by decide) (by decide) (by decide),
      splitOnSub_of_none _ _ (by decide)]
  have hrep5 : pyReplace ((" KB)").data) [] (("5").data) = ("5").data := by
    rw [pyReplace, splitOnSub_of_none _ _ (by decide)]
    rfl
  have hrep7 : pyReplace ((" KB)").data) [] (("7").data) = ("7").data := by
    rw [pyReplace, splitOnSub_of_none _ _ (by decide)]
    rfl
  have hp1 : parseFileLine (("1. a (5 (x.jpg (0.1 KB)").data) = some ("a", 50) := by
    rw [parseFileLine_eq_of (("1. a (5 (x.jpg (0.1 KB)").data) (("1").data)
      ((" a (5 (x.jpg (0.1 KB)").data) (("a (5 (x.jpg (0.1 KB)").data)
      (by decide) (by decide)]
    rw [if_pos (by decide)]
    rw [hsp1]
    rw [show ([("a").data, ("5").data, ("x.jpg").data, ("0.1 KB)").data].getD 1 [])
        = ("5").data from rfl]
    rw [show ([("a").data, ("5").data, ("x.jpg").data, ("0.1 KB)").data].getD 0 [])
        = ("a").data from rfl]
    rw [hrep5, show pyFloatTenths (("5").data) = some 50 from by decide]
  have hp2 : parseFileLine (("2. a (7 (y.jpg (0.1 KB)").data) = some ("a", 70) := by
    rw [parseFileLine_eq_of (("2. a (7 (y.jpg (0.1 KB)").data) (("2").data)
      ((" a (7 (y.jpg (0.1 KB)").data) (("a (7 (y.jpg (0.1 KB)").data)
      (by decide) (by decide)]
    rw [if_pos (by decide)]
    rw [hsp2]
    rw [show ([("a").data, ("7").data, ("y.jpg").data, ("0.1 KB)").data].getD 1 [])
        = ("7").data from rfl]
    rw [show ([("a").data, ("7").data, ("y.jpg").data, ("0.1 KB)").data].getD 0 [])
        = ("a").data from rfl]
    rw [hrep7, show pyFloatTenths (("7").data) = some 70 from by decide]
  have hparse : ∀ st : String × Nat × List (String × Nat),
      parseFolderLines [("1. a (5 (x.jpg (0.1 KB)").data,
          ("2. a (7 (y.jpg (0.1 KB)").data] st
        = some (st.1, st.2.1, st.2.2 ++ [("a", 50), ("a", 70)]) := by
    intro st
    rw [parseFolderLines_cons_file _ _ st ("a", 50) (by decide) (by decide)
      (by decide) (by decide) hp1]
    rw [parseFolderLines_cons_file _ _ _ ("a", 70) (by decide) (by decide)
      (by decide) (by decide) hp2]
    rw [show parseFolderLines []
        (st.1, st.2.1, (st.2.2 ++ [("a", 50)]) ++ [("a", (70 : Nat))])
        = some (st.1, st.2.1, (st.2.2 ++ [("a", 50)]) ++ [("a", 70)]) from rfl]
    simp
  have hdata := toolListFolderContents_data ("room")
    ["a (5 (x.jpg", "a (7 (y.jpg"] (fun _ => 1) (by decide)
  rw [hms, show (["a (5 (x.jpg", "a (7 (y.jpg"] : List String).length = 2 from rfl,
    hlines] at hdata
  have hpd : parseFolderData (toolListFolderContents ("room")
      ["a (5 (x.jpg", "a (7 (y.jpg"] (fun _ => 1))
      = some ⟨"room", 2, [("a", 50), ("a", 70)]⟩ :=
    parseFolderData_of_data _ ("room") 2 _ _ hdata (by decide) (by decide)
      (by decide) (by simp) (by decide) hparse
  have hfold : hasSub (("Folder:").data) (toolListFolderContents ("room")
      ["a (5 (x.jpg", "a (7 (y.jpg"] (fun _ => 1)).data = true := by
    rw [hdata, hn2]
    decide
  have htot : hasSub (("Total files:").data) (toolListFolderContents ("room")
      ["a (5 (x.jpg", "a (7 (y.jpg"] (fun _ => 1)).data = true := by
    rw [hdata, hn2]
    decide
  refine ⟨by decide, ?_⟩
  generalize hL : toolListFolderContents ("room")
    ["a (5 (x.jpg", "a (7 (y.jpg"] (fun _ => 1) = listing at hpd hfold htot ⊢
  unfold analyzeToolResults
  rw [show ([listing].find? (fun r =>
        hasSub ("Folder:".data) r.data ∧ hasSub ("Total files:".data) r.data))
      = some listing from by simp [List.find?, hfold, htot]]
  show (match parseFolderData listing with
    | none => "Error analyzing tool results: invalid folder report"
    | some info => routeAnswer ("any duplicates?") info listing) = _
  rw [hpd]
  show routeAnswer ("any duplicates?") ⟨"room", 2, [("a", 50), ("a", 70)]⟩ listing = _
  simp only [routeAnswer]
  rw [if_pos (by decide)]
  simp only [dupResponse]
  rw [show ([("a", (50 : Nat)), ("a", 70)].map (fun f => f.1)) = ["a", "a"] from rfl]
  rw [if_neg (by decide)]
  rw [show ((["a", "a"] : List String).length
      - ((["a", "a"] : List String).dedup).length) = 1 from by decide]
  rw [show (((["a", "a"] : List String).dedup).length) = 1 from by decide]
  rw [hn1, hn2]
  decide

/-- C10 (amended): for a loaded folder of report-renderable file names
(non-empty, not starting with whitespace, free of the separator substring
`" ("` and of newlines, with a folder name that strips to itself and avoids
the header markers), the duplicate branch of the local router always answers
that there are no duplicates: the listing tool deduplicates with `set()`
before rendering, so the parsed name list equals its own dedup.  Outside
those names the parse can collide distinct files (see the counterexample). -/
theorem claim_c10 (userMessage folderName : String) (paths : List String)
    (sizeOf : String → Nat)
    (hdup : hasSub ("duplicate".data) (pyLower userMessage) = true)
    (hne : ¬ paths = [])
    (hfnStrip : pyStrip folderName = folderName)
    (hfnF : hasSub ("Folder:".data) folderName.data = false)
    (hfnNl : ∀ c ∈ folderName.data, ¬ c = '\n')
    (hps : ∀ p ∈ paths,
      ((¬ p.data = [] ∧ isPySpace (p.data.headD ' ') = false)
        ∧ hasSub [' ', '('] p.data = false)
      ∧ ∀ c ∈ p.data, ¬ c = '\n') :
    analyzeToolResults userMessage [toolListFolderContents folderName paths sizeOf]
      = "No, there are no duplicate files in the '" ++ folderName
        ++ "' folder. All "
        ++ String.mk (natStr ((paths.dedup).mergeSort (fun a b => a ≤ b)).length)
        ++ " files have unique names." := by
  have hperm : List.Perm ((paths.dedup).mergeSort (fun a b => a ≤ b)) paths.dedup :=
    List.mergeSort_perm (paths.dedup) _
  have hmemU : ∀ p ∈ (paths.dedup).mergeSort (fun a b => a ≤ b), p ∈ paths :=
    fun p hp => List.mem_dedup.mp (hperm.mem_iff.mp hp)
  have hnodup : ((paths.dedup).mergeSort (fun a b => a ≤ b)).Nodup :=
    hperm.nodup_iff.mpr (List.nodup_dedup paths)
  have hUne : ¬ (paths.dedup).mergeSort (fun a b => a ≤ b) = [] := by
    intro he
    rw [he] at hperm
    exact hne ((List.dedup_eq_nil paths).mp hperm.symm.eq_nil)
  have hdata := toolListFolderContents_data folderName paths sizeOf hne
  have hlNl := fileLines_no_newline sizeOf ((paths.dedup).mergeSort (fun a b => a ≤ b)) 1
    (fun p hp => (hps p (hmemU p hp)).2)
  have hlNe : ¬ ((fileLines sizeOf 1
      ((paths.dedup).mergeSort (fun a b => a ≤ b))).map String.data) = [] := by
    cases hU : (paths.dedup).mergeSort (fun a b => a ≤ b) with
    | nil => exact absurd hU hUne
    | cons p ps' =>
        rw [show fileLines sizeOf 1 (p :: ps')
          = (String.mk (natStr 1) ++ ". " ++ p ++ " ("
              ++ String.mk (fmtTenths (sizeOf p)) ++ " KB)")
            :: fileLines sizeOf 2 ps' from rfl]
        simp
  have hparse : ∀ st : String × Nat × List (String × Nat),
      parseFolderLines ((fileLines sizeOf 1
          ((paths.dedup).mergeSort (fun a b => a ≤ b))).map String.data) st
        = some (st.1, st.2.1, st.2.2
            ++ ((paths.dedup).mergeSort (fun a b => a ≤ b)).map
              (fun p => (p, sizeOf p))) := by
    intro st
    refine parseFolderLines_fileLines sizeOf _ 1 st ?_
    intro p hp
    obtain ⟨⟨⟨hne', hhead⟩, hsub⟩, _⟩ := hps p (hmemU p hp)
    cases hcd : p.data with
    | nil => exact absurd hcd hne'
    | cons d dt =>
        rw [hcd] at hhead hsub
        exact ⟨⟨d, dt, rfl, hhead⟩, hsub⟩
  have hpd : parseFolderData (toolListFolderContents folderName paths sizeOf)
      = some ⟨folderName, ((paths.dedup).mergeSort (fun a b => a ≤ b)).length,
          ((paths.dedup).mergeSort (fun a b => a ≤ b)).map (fun p => (p, sizeOf p))⟩ :=
    parseFolderData_of_data _ folderName _ _ _ hdata hfnStrip hfnF hfnNl hlNe hlNl hparse
  have hfold : hasSub ("Folder:".data)
      (toolListFolderContents folderName paths sizeOf).data = true := by
    rw [hdata]
    exact hasSub_prefix _ _ (isPrefixOf_append_of _ _ _
      (isPrefixOf_append_self ("Folder:".data) (' ' :: folderName.data)))
  have htot : hasSub ("Total files:".data)
      (toolListFolderContents folderName paths sizeOf).data = true := by
    rw [hdata]
    have h0 := hasSub_mid ("Total files:".data)
      ((("Folder:".data) ++ ' ' :: folderName.data) ++ ['\n'])
      (' ' :: natStr ((paths.dedup).mergeSort (fun a b => a ≤ b)).length
        ++ '\n' :: '\n' :: (("Files:".data)
          ++ '\n' :: joinWith ['\n'] ((fileLines sizeOf 1
              ((paths.dedup).mergeSort (fun a b => a ≤ b))).map String.data)))
    simp only [List.append_assoc, List.cons_append, List.singleton_append,
      List.nil_append] at h0 ⊢
    exact h0
  generalize hL : toolListFolderContents folderName paths sizeOf = listing
    at hpd hfold htot ⊢
  unfold analyzeToolResults
  rw [show ([listing].find? (fun r =>
        hasSub ("Folder:".data) r.data ∧ hasSub ("Total files:".data) r.data))
      = some listing from by simp [List.find?, hfold, htot]]
  show (match parseFolderData listing with
    | none => "Error analyzing tool results: invalid folder report"
    | some info => routeAnswer userMessage info listing) = _
  rw [hpd]
  show routeAnswer userMessage
    ⟨folderName, ((paths.dedup).mergeSort (fun a b => a ≤ b)).length,
      ((paths.dedup).mergeSort (fun a b => a ≤ b)).map (fun p => (p, sizeOf p))⟩
    listing = _
  simp only [routeAnswer]
  rw [if_pos hdup]
  refine dupResponse_nodup folderName _ _ ?_
  rw [List.map_map,
    show ((fun f : String × Nat => f.1) ∘ fun p => (p, sizeOf p)) = id from rfl,
    List.map_id]
  exact hnodup

theorem claim_c10_witness :
    hasSub ("duplicate".data) (pyLower ("any duplicates?")) = true
    ∧ analyzeToolResults ("any duplicates?")
        [toolListFolderContents ("room") ["b.webp", "a.jpg", "b.webp"]
          (fun p => p.length)]
      = "No, there are no duplicate files in the '" ++ "room"
        ++ "' folder. All "
        ++ String.mk (natStr ((["b.webp", "a.jpg", "b.webp"].dedup).mergeSort
            (fun a b => a ≤ b)).length)
        ++ " files have unique names." :=
  ⟨by decide,
    claim_c10 ("any duplicates?") ("room") ["b.webp", "a.jpg", "b.webp"]
      (fun p => p.length) (by decide) (by decide) (by decide) (by decide)
      (by decide) (by decide)⟩

end ImageProc
